import Mathlib

/-!
Shallow embedding of the `zrml/prediction-markets` pallet
(`src/zrml/prediction-markets/src/lib.rs`) together with the primitive type
aliases of `src/primitives/src/lib.rs` (`Balance = u128`, `MarketId = u128`,
`BlockNumber = u64`, `Moment = u64`).

Machine integers are modelled as `Nat`; the places where the source performs a
narrowing cast (`as u16`, `as u32`) or a checked addition on `u128` carry an
explicit `% 2 ^ w` respectively an explicit overflow test.  Storage maps become
total functions, and every dispatchable becomes a function in the monad
`M α = St → Except Error α × St`: the state component is threaded through and
*kept* on an error, matching the non-transactional dispatch semantics of the
Substrate version this pallet is written against (an `Err` returned from a
dispatchable does not roll back storage writes already made, which is why the
source is careful to check everything before mutating).
-/

namespace Zeitgeist

/-- Account identifiers.  `user n` is an ordinary account; `market m` is the
per-market custodial sub-account produced by
`T::ModuleId::get().into_sub_account(market_id)` (injective, disjoint from
user accounts). -/
inductive AccountId : Type
  | user (n : Nat)
  | market (m : Nat)
  deriving DecidableEq, Repr

/-- `zeitgeist_primitives::Asset`, restricted to the constructors this pallet
uses: the native currency and `PredictionMarketShare(market_id, outcome)`. -/
inductive Asset : Type
  | ztg
  | predictionMarketShare (marketId : Nat) (outcome : Nat)
  deriving DecidableEq, Repr

/-- `MarketCreation` (from the pallet's `market` module, used throughout
`lib.rs`). -/
inductive MarketCreation : Type
  | permissionless
  | advised
  deriving DecidableEq, Repr

/-- `MarketStatus`.  The five statuses that appear in `lib.rs` and in the
spec's status machine (§3). -/
inductive MarketStatus : Type
  | proposed
  | active
  | reported
  | disputed
  | resolved
  deriving DecidableEq, Repr

/-- `MarketType`; only `Categorical` is ever constructed in `lib.rs`. -/
inductive MarketType : Type
  | categorical
  deriving DecidableEq, Repr

/-- `MarketEnd<BlockNumber>`: a market ends either at a block height or at a
unix timestamp in milliseconds. -/
inductive MarketEnd : Type
  | block (b : Nat)
  | timestamp (t : Nat)
  deriving DecidableEq, Repr

/-- `Report { at, by, outcome }` (fields `at` and `by` are Lean keywords,
hence `at_` / `by_`). -/
structure Report : Type where
  at_ : Nat
  by_ : AccountId
  outcome : Nat
  deriving DecidableEq, Repr

/-- `MarketDispute { at, by, outcome }`. -/
structure MarketDispute : Type where
  at_ : Nat
  by_ : AccountId
  outcome : Nat
  deriving DecidableEq, Repr

/-- `Market<AccountId, BlockNumber>` as used by `lib.rs` (`end` is a Lean
keyword, hence `end_`). -/
structure Market : Type where
  creator : AccountId
  creation : MarketCreation
  creatorFee : Nat
  oracle : AccountId
  end_ : MarketEnd
  metadata : List Nat
  marketType : MarketType
  status : MarketStatus
  report : Option Report
  categories : Option Nat
  resolvedOutcome : Option Nat
  deriving DecidableEq, Repr

/-- Modelled from the spec: `Market::outcomes` lives in the pallet's `market`
module, whose source file is not present; spec §3 describes `categories` as
"outcome count" for (the only) `Categorical` market type, so the number of
outcomes is the stored category count. -/
def Market.outcomes (m : Market) : Nat := m.categories.getD 0

/-- The error cases a dispatchable can produce.  The named constructors mirror
`decl_error!`; `insufficientFunds` stands for the `DispatchError` raised by the
external currency ledger's `reserve` / `transfer`; `noReport` / `notResolved`
are modelled from the spec for the string constants of the missing `errors`
module (`NO_REPORT`, `NOT_RESOLVED`); `other` carries the ad-hoc `ensure!`
string messages; `panicked` marks a Rust panic (`expect`, `unwrap`, index out
of range, division by zero). -/
inductive Error : Type
  | MarketDoesNotExist
  | NotEnoughBalance
  | MarketNotActive
  | InsufficientShareBalance
  | MarketNotResolved
  | NoWinningBalance
  | InsufficientFundsInMarketAccount
  | ReporterNotOracle
  | MarketNotClosed
  | MarketNotReported
  | MaxDisputesReached
  | CannotDisputeSameOutcome
  | OutcomeOutOfRange
  | MarketAlreadyReported
  | SwapPoolExists
  | EndTimestampTooSoon
  | EndBlockTooSoon
  | insufficientFunds
  | noReport
  | notResolved
  | other (msg : String)
  | panicked
  deriving DecidableEq, Repr

/-- The `Get<_>`-constants of the pallet's `Trait`.  `maxDisputes` and
`maxCategories` are `u16` in the source, bonds/periods are `Balance` /
`BlockNumber`. -/
structure Config : Type where
  reportingPeriod : Nat
  disputePeriod : Nat
  advisoryBond : Nat
  disputeBond : Nat
  disputeFactor : Nat
  maxDisputes : Nat
  oracleBond : Nat
  validityBond : Nat
  maxCategories : Nat
  deriving DecidableEq, Repr

/-- The ambient chain context: `frame_system` block number and
`pallet_timestamp` now (ms). -/
structure Chain : Type where
  block : Nat
  time : Nat
  deriving DecidableEq, Repr

/-- Pointwise update of a total map. -/
def upd {κ α : Type} [DecidableEq κ] (f : κ → α) (k : κ) (v : α) : κ → α :=
  fun j => if j = k then v else f j

@[simp] theorem upd_same {κ α : Type} [DecidableEq κ] (f : κ → α) (k : κ) (v : α) :
    upd f k v k = v := by simp [upd]

@[simp] theorem upd_ne {κ α : Type} [DecidableEq κ] (f : κ → α) (k : κ) (v : α)
    (j : κ) (h : j ≠ k) : upd f k v j = f j := by simp [upd, h]

@[simp] theorem upd_self {κ α : Type} [DecidableEq κ] (f : κ → α) (k : κ) :
    upd f k (f k) = f := by
  funext j
  by_cases h : j = k <;> simp [upd, h]

/-- The pallet's storage (`decl_storage!`) plus the two external ledgers it
drives: the fungible currency ledger (free/reserved balances) and the
multi-asset outcome-share ledger. -/
structure St : Type where
  markets : Nat → Option Market
  marketCount : Nat
  marketIdsPerReportBlock : Nat → List Nat
  marketIdsPerDisputeBlock : Nat → List Nat
  disputes : Nat → List MarketDispute
  marketToSwapPool : Nat → Option Nat
  free : AccountId → Nat
  reserved : AccountId → Nat
  shares : Asset → AccountId → Nat

instance {α : Type} [DecidableEq α] : DecidableEq (Except Error α) := fun a b =>
  match a, b with
  | Except.ok x, Except.ok y =>
      if h : x = y then isTrue (by rw [h]) else isFalse (fun hh => h (Except.ok.inj hh))
  | Except.ok _, Except.error _ => isFalse (fun h => Except.noConfusion h)
  | Except.error _, Except.ok _ => isFalse (fun h => Except.noConfusion h)
  | Except.error e, Except.error f =>
      if h : e = f then isTrue (by rw [h]) else isFalse (fun hh => h (Except.error.inj hh))

/-- Dispatch monad: state is threaded and kept across errors (storage writes
made before an `Err` persist in this Substrate version). -/
def M (α : Type) : Type := St → Except Error α × St

def M.pureImpl {α : Type} (a : α) : M α := fun st => (Except.ok a, st)

def M.bindImpl {α β : Type} (x : M α) (f : α → M β) : M β := fun st =>
  match x st with
  | (Except.ok a, st') => f a st'
  | (Except.error e, st') => (Except.error e, st')

instance : Monad M where
  pure := M.pureImpl
  bind := M.bindImpl

@[simp] theorem M.pure_apply {α : Type} (a : α) (st : St) :
    (pure a : M α) st = (Except.ok a, st) := rfl

@[simp] theorem M.bind_apply {α β : Type} (x : M α) (f : α → M β) (st : St) :
    (x >>= f) st =
      match x st with
      | (Except.ok a, st') => f a st'
      | (Except.error e, st') => (Except.error e, st') := rfl

def throwM {α : Type} (e : Error) : M α := fun st => (Except.error e, st)

@[simp] theorem throwM_apply {α : Type} (e : Error) (st : St) :
    (throwM e : M α) st = (Except.error e, st) := rfl

def getM : M St := fun st => (Except.ok st, st)

@[simp] theorem getM_apply (st : St) : getM st = (Except.ok st, st) := rfl

def setM (st' : St) : M Unit := fun _ => (Except.ok (), st')

@[simp] theorem setM_apply (st' st : St) : setM st' st = (Except.ok (), st') := rfl

/-- `ensure!(b, e)`. -/
def ensureM (b : Bool) (e : Error) : M Unit :=
  if b then pure () else throwM e

@[simp] theorem ensureM_apply (b : Bool) (e : Error) (st : St) :
    ensureM b e st = (if b then Except.ok () else Except.error e, st) := by
  by_cases h : b <;> simp [ensureM, h]

theorem ensureM_pos {P : Prop} [Decidable P] (hP : P) (e : Error) (st : St) :
    ensureM (decide P) e st = (Except.ok (), st) := by
  simp [ensureM, hP]

theorem ensureM_neg {P : Prop} [Decidable P] (hP : ¬P) (e : Error) (st : St) :
    ensureM (decide P) e st = (Except.error e, st) := by
  simp [ensureM, hP]

theorem ensureM_true {b : Bool} (hb : b = true) (e : Error) (st : St) :
    ensureM b e st = (Except.ok (), st) := by
  simp [ensureM, hb]

theorem ensureM_false {b : Bool} (hb : b = false) (e : Error) (st : St) :
    ensureM b e st = (Except.error e, st) := by
  simp [ensureM, hb]

/-- `.expect(..)`: turn a dispatch error into a panic. -/
def expectOk {α : Type} (x : M α) : M α := fun st =>
  match x st with
  | (Except.ok a, st') => (Except.ok a, st')
  | (Except.error _, st') => (Except.error Error.panicked, st')

/-! ### External currency ledger (`T::Currency`, a `ReservableCurrency`) -/

/-- `reserve(who, amount)`: fails if the free balance is insufficient,
otherwise moves `amount` from free to reserved. -/
def reserveCurrency (a : AccountId) (amount : Nat) : M Unit := do
  let st ← getM
  if st.free a < amount then throwM Error.insufficientFunds
  else
    setM { st with
      free := upd st.free a (st.free a - amount),
      reserved := upd st.reserved a (st.reserved a + amount) }

/-- `unreserve(who, amount)`: moves `min(reserved, amount)` back to free;
never fails. -/
def unreserveCurrency (a : AccountId) (amount : Nat) : M Unit := do
  let st ← getM
  let moved := min amount (st.reserved a)
  setM { st with
    free := upd st.free a (st.free a + moved),
    reserved := upd st.reserved a (st.reserved a - moved) }

/-- `slash_reserved(who, amount)`: removes `min(reserved, amount)` from the
reserved balance and returns it as a negative imbalance (a plain amount
here). -/
def slashReservedCurrency (a : AccountId) (amount : Nat) : M Nat := do
  let st ← getM
  let slashed := min amount (st.reserved a)
  _ ← setM { st with reserved := upd st.reserved a (st.reserved a - slashed) }
  pure slashed

/-- `transfer(src, dst, amount, _)`: fails if the source's free balance is
below `amount` (the `ExistenceRequirement` flag is not modelled). -/
def transferCurrency (src dst : AccountId) (amount : Nat) : M Unit := do
  let st ← getM
  if st.free src < amount then throwM Error.insufficientFunds
  else
    setM { st with
      free := upd (upd st.free src (st.free src - amount)) dst
        ((upd st.free src (st.free src - amount)) dst + amount) }

/-- `resolve_creating(who, imbalance)`: deposits the imbalance's amount into
the account's free balance. -/
def resolveCreating (a : AccountId) (amount : Nat) : M Unit := do
  let st ← getM
  setM { st with free := upd st.free a (st.free a + amount) }

/-! ### External outcome-share ledger (`T::Shares`) -/

/-- `Shares::deposit(currency_id, who, amount)` (cannot overflow on `Nat`). -/
def depositShares (sid : Asset) (a : AccountId) (amount : Nat) : M Unit := do
  let st ← getM
  setM { st with
    shares := upd st.shares sid (upd (st.shares sid) a (st.shares sid a + amount)) }

/-- `Shares::slash(currency_id, who, amount)`: burns up to `amount`. -/
def slashShares (sid : Asset) (a : AccountId) (amount : Nat) : M Unit := do
  let st ← getM
  setM { st with
    shares := upd st.shares sid
      (upd (st.shares sid) a (st.shares sid a - min amount (st.shares sid a))) }

/-- `Shares::destroy_all(currency_id, accounts)` applied (as in the source) to
`accounts_by_currency_id(currency_id)`, i.e. every holder: all balances of the
asset drop to zero. -/
def destroyAllShares (sid : Asset) : M Unit := do
  let st ← getM
  setM { st with
    shares := fun s a => if s = sid then 0 else st.shares s a }

/-! ### Module helpers -/

/-- `Module::market_account`. -/
def marketAccount (marketId : Nat) : AccountId := AccountId.market marketId

/-- `Module::market_outcome_share_id`. -/
def marketOutcomeShareId (marketId outcome : Nat) : Asset :=
  Asset.predictionMarketShare marketId outcome

/-- `Module::is_market_active`: compares `end` against the *matching* time
source only — block height for `Block` ends, timestamp for `Timestamp` ends.
No market status is consulted. -/
def isMarketActive (chain : Chain) (e : MarketEnd) : Bool :=
  match e with
  | MarketEnd.block b => chain.block < b
  | MarketEnd.timestamp t => chain.time < t

/-- `Module::market_by_id`. -/
def marketById (marketId : Nat) : M Market := do
  let st ← getM
  match st.markets marketId with
  | none => throwM Error.MarketDoesNotExist
  | some m => pure m

/-- `Module::get_next_market_id`: `checked_add` on the `u128` counter, then
store the incremented counter. -/
def getNextMarketId : M Nat := do
  let st ← getM
  let next := st.marketCount
  if next + 1 < 2 ^ 128 then do
    _ ← setM { st with marketCount := next + 1 }
    pure next
  else throwM (Error.other "Overflow when incrementing market count.")

/-- `Vec::swap_remove(pos)`: overwrite position `pos` with the last element
and pop the last element. -/
def swapRemove (l : List Nat) (pos : Nat) : List Nat :=
  match l.getLast? with
  | none => []
  | some last => (l.set pos last).dropLast

/-- The free function `remove_item`: `position(..).unwrap()` followed by
`swap_remove`; `none` encodes the `unwrap` panic on a missing item. -/
def removeItem (l : List Nat) (x : Nat) : Option (List Nat) :=
  match l.findIdx? (fun i => i = x) with
  | none => none
  | some pos => some (swapRemove l pos)

/-! ### Dispatchables -/

/-- `create_categorical_market`. -/
def createCategoricalMarket (cfg : Config) (chain : Chain) (sender oracle : AccountId)
    (end_ : MarketEnd) (metadata : List Nat) (creation : MarketCreation)
    (categories : Nat) : M Unit := do
  ensureM (decide (categories ≤ cfg.maxCategories))
    (Error.other "Cannot exceed max categories for a new market.")
  (match end_ with
   | MarketEnd.block b => ensureM (decide (chain.block < b)) Error.EndBlockTooSoon
   | MarketEnd.timestamp t => ensureM (decide (chain.time < t)) Error.EndTimestampTooSoon)
  let status ← (match creation with
    | MarketCreation.permissionless => do
        reserveCurrency sender (cfg.validityBond + cfg.oracleBond)
        pure MarketStatus.active
    | MarketCreation.advised => do
        reserveCurrency sender (cfg.advisoryBond + cfg.oracleBond)
        pure MarketStatus.proposed)
  let marketId ← getNextMarketId
  let market : Market :=
    { creator := sender, creation := creation, creatorFee := 0, oracle := oracle,
      end_ := end_, metadata := metadata, marketType := MarketType.categorical,
      status := status, report := none, categories := some categories,
      resolvedOutcome := none }
  let st ← getM
  setM { st with markets := upd st.markets marketId (some market) }

/-- `approve_market`.  Note: the source performs *no* check on the market's
current status — it unreserves the advisory bond and forces the status to
`Active` for any existing market. -/
def approveMarket (cfg : Config) (marketId : Nat) : M Unit := do
  let market ← marketById marketId
  let creator := market.creator
  unreserveCurrency creator cfg.advisoryBond
  let st ← getM
  (match st.markets marketId with
   | none => throwM Error.panicked
   | some m =>
       setM { st with
         markets := upd st.markets marketId
                      (some { m with status := MarketStatus.active }) })

/-- `reject_market`: slashes the advisory bond (the imbalance goes to
`T::Slash`, i.e. out of every modelled account) and deletes the record. -/
def rejectMarket (cfg : Config) (marketId : Nat) : M Unit := do
  let market ← marketById marketId
  let _imb ← slashReservedCurrency market.creator cfg.advisoryBond
  let st ← getM
  setM { st with markets := upd st.markets marketId none }

/-- `cancel_pending_market`. -/
def cancelPendingMarket (cfg : Config) (sender : AccountId) (marketId : Nat) : M Unit := do
  let market ← marketById marketId
  ensureM (decide (market.creator = sender)) (Error.other "Canceller must be market creator.")
  ensureM (decide (market.status = MarketStatus.proposed))
    (Error.other "Market must be pending approval.")
  unreserveCurrency market.creator cfg.advisoryBond
  let st ← getM
  setM { st with markets := upd st.markets marketId none }

/-- `deploy_swap_pool_for_market`; the external `T::Swap::create_pool` call's
returned pool id is supplied as the `poolId` parameter. -/
def deploySwapPoolForMarket (marketId poolId : Nat) : M Unit := do
  let market ← marketById marketId
  ensureM (decide (market.status = MarketStatus.active)) Error.MarketNotActive
  let st ← getM
  ensureM (st.marketToSwapPool marketId).isNone Error.SwapPoolExists
  let st2 ← getM
  setM { st2 with marketToSwapPool := upd st2.marketToSwapPool marketId (some poolId) }

/-- The mint loop of `do_buy_complete_set`:
`for i in 0..market.outcomes() { Shares::deposit(share_id(i), who, amount)? }`. -/
def depositAllShares (marketId : Nat) (who : AccountId) (amount : Nat) :
    List Nat → M Unit
  | [] => pure ()
  | i :: rest => do
      depositShares (marketOutcomeShareId marketId i) who amount
      depositAllShares marketId who amount rest

/-- `do_buy_complete_set` (the body of the `buy_complete_set` dispatchable). -/
def doBuyCompleteSet (chain : Chain) (who : AccountId) (marketId amount : Nat) :
    M Unit := do
  let st ← getM
  ensureM (decide (amount ≤ st.free who)) Error.NotEnoughBalance
  let market ← marketById marketId
  ensureM (isMarketActive chain market.end_) Error.MarketNotActive
  transferCurrency who (marketAccount marketId) amount
  depositAllShares marketId who amount (List.range market.outcomes)

/-- The check loop of `sell_complete_set`: every outcome's share balance is
validated before anything is burned. -/
def checkAllShares (marketId : Nat) (sender : AccountId) (amount : Nat) :
    List Nat → M Unit
  | [] => pure ()
  | i :: rest => do
      let st ← getM
      ensureM (decide (amount ≤ st.shares (marketOutcomeShareId marketId i) sender))
        Error.InsufficientShareBalance
      checkAllShares marketId sender amount rest

/-- The burn loop of `sell_complete_set`. -/
def slashAllShares (marketId : Nat) (sender : AccountId) (amount : Nat) :
    List Nat → M Unit
  | [] => pure ()
  | i :: rest => do
      slashShares (marketOutcomeShareId marketId i) sender amount
      slashAllShares marketId sender amount rest

/-- `sell_complete_set`. -/
def sellCompleteSet (chain : Chain) (sender : AccountId) (marketId amount : Nat) :
    M Unit := do
  let market ← marketById marketId
  ensureM (isMarketActive chain market.end_) Error.MarketNotActive
  let st ← getM
  ensureM (decide (amount ≤ st.free (marketAccount marketId)))
    (Error.other "Market account does not have sufficient reserves.")
  checkAllShares marketId sender amount (List.range market.outcomes)
  slashAllShares marketId sender amount (List.range market.outcomes)
  transferCurrency (marketAccount marketId) sender amount

/-- `report`. -/
def reportMarket (cfg : Config) (chain : Chain) (sender : AccountId)
    (marketId outcome : Nat) : M Unit := do
  let market ← marketById marketId
  ensureM (decide (outcome ≤ market.outcomes)) Error.OutcomeOutOfRange
  ensureM market.report.isNone Error.MarketAlreadyReported
  ensureM (!isMarketActive chain market.end_) Error.MarketNotClosed
  (match market.end_ with
   | MarketEnd.block b =>
       if chain.block ≤ b + cfg.reportingPeriod then
         ensureM (decide (sender = market.oracle)) Error.ReporterNotOracle
       else pure ()
   | MarketEnd.timestamp t =>
       if chain.time ≤ t + cfg.reportingPeriod * 6000 then
         ensureM (decide (sender = market.oracle)) Error.ReporterNotOracle
       else pure ())
  let market' := { market with
    report := some { at_ := chain.block, by_ := sender, outcome := outcome },
    status := MarketStatus.reported }
  let st ← getM
  _ ← setM { st with markets := upd st.markets marketId (some market') }
  let st2 ← getM
  setM { st2 with
    marketIdsPerReportBlock := upd st2.marketIdsPerReportBlock chain.block
                                 (st2.marketIdsPerReportBlock chain.block ++ [marketId]) }

/-- `dispute`.  `num_disputes` is the `u16` cast of the sequence length. -/
def disputeMarket (cfg : Config) (chain : Chain) (sender : AccountId)
    (marketId outcome : Nat) : M Unit := do
  let market ← marketById marketId
  ensureM market.report.isSome Error.MarketNotReported
  ensureM (decide (outcome < market.outcomes)) Error.OutcomeOutOfRange
  let st ← getM
  let disputesList := st.disputes marketId
  let numDisputes := disputesList.length % 2 ^ 16
  ensureM (decide (numDisputes < cfg.maxDisputes)) Error.MaxDisputesReached
  (if numDisputes > 0 then
     match disputesList.get? (numDisputes - 1) with
     | none => throwM Error.panicked
     | some prev =>
         ensureM (decide (prev.outcome ≠ outcome)) Error.CannotDisputeSameOutcome
   else pure ())
  reserveCurrency sender (cfg.disputeBond + cfg.disputeFactor * numDisputes)
  (if numDisputes > 0 then
     match disputesList.get? (numDisputes - 1) with
     | none => throwM Error.panicked
     | some prev => do
         let st2 ← getM
         (match removeItem (st2.marketIdsPerDisputeBlock prev.at_) marketId with
          | none => throwM Error.panicked
          | some l =>
              setM { st2 with
                marketIdsPerDisputeBlock := upd st2.marketIdsPerDisputeBlock
                                              prev.at_ l })
   else pure ())
  let st3 ← getM
  _ ← setM { st3 with
        marketIdsPerDisputeBlock := upd st3.marketIdsPerDisputeBlock chain.block
                                      (st3.marketIdsPerDisputeBlock chain.block ++ [marketId]) }
  let st4 ← getM
  _ ← setM { st4 with
        disputes := upd st4.disputes marketId
                      (st4.disputes marketId ++
                        [{ at_ := chain.block, by_ := sender, outcome := outcome }]) }
  (if market.status ≠ MarketStatus.disputed then do
     let st5 ← getM
     (match st5.markets marketId with
      | none => throwM Error.panicked
      | some m =>
          setM { st5 with
            markets := upd st5.markets marketId
                         (some { m with status := MarketStatus.disputed }) })
   else pure ())

/-- `global_dispute` (unimplemented stub in the source). -/
def globalDispute (marketId : Nat) : M Unit := do
  let _market ← marketById marketId
  pure ()

/-- `redeem_shares`. -/
def redeemShares (sender : AccountId) (marketId : Nat) : M Unit := do
  let market ← marketById marketId
  ensureM (decide (market.status = MarketStatus.resolved)) Error.MarketNotResolved
  (match market.resolvedOutcome with
   | none => throwM Error.notResolved
   | some resolvedOutcome => do
       let winningSharesId := marketOutcomeShareId marketId resolvedOutcome
       let st ← getM
       let winningBalance := st.shares winningSharesId sender
       ensureM (decide (0 ≤ winningBalance)) Error.NoWinningBalance
       let st2 ← getM
       ensureM (decide (winningBalance ≤ st2.free (marketAccount marketId)))
         Error.InsufficientFundsInMarketAccount
       slashShares winningSharesId sender winningBalance
       transferCurrency (marketAccount marketId) sender winningBalance)

/-! ### Resolution engine (`internal_resolve` and its loops) -/

/-- The per-dispute settlement loop of `internal_resolve` (`Disputed` branch):
`for i in 0..num_disputes`, release the `i`-th dispute bond and record the
disputer as correct when its outcome equals the resolved one, otherwise slash
the bond into the pooled imbalance.  The list argument is
`(disputes.take num_disputes).enum`, the accumulators are `correct_reporters`
and `overall_imbalance`. -/
def settleDisputesLoop (cfg : Config) (resolvedOutcome : Nat) :
    List (Nat × MarketDispute) → List AccountId → Nat → M (List AccountId × Nat)
  | [], correct, overall => pure (correct, overall)
  | (i, d) :: rest, correct, overall => do
      let disputeBond := cfg.disputeBond + cfg.disputeFactor * i
      if d.outcome = resolvedOutcome then do
        unreserveCurrency d.by_ disputeBond
        settleDisputesLoop cfg resolvedOutcome rest (correct ++ [d.by_]) overall
      else do
        let imb ← slashReservedCurrency d.by_ disputeBond
        settleDisputesLoop cfg resolvedOutcome rest correct (overall + imb)

/-- The reward loop of `internal_resolve`: repeatedly `split` the pooled
imbalance by `reward_per_each` and deposit each part to a correct reporter. -/
def distributeRewards : List AccountId → Nat → Nat → M Unit
  | [], _, _ => pure ()
  | a :: rest, rewardPerEach, overall => do
      let amount := min rewardPerEach overall
      resolveCreating a amount
      distributeRewards rest rewardPerEach (overall - amount)

/-- The share-cleanup loop of `internal_resolve`: destroy every outcome's
shares except the winning outcome's. -/
def destroyLosingShares (marketId resolvedOutcome : Nat) : List Nat → M Unit
  | [] => pure ()
  | i :: rest => do
      (if i = resolvedOutcome then pure ()
       else destroyAllShares (marketOutcomeShareId marketId i))
      destroyLosingShares marketId resolvedOutcome rest

/-- `internal_resolve`. -/
def internalResolve (cfg : Config) (marketId : Nat) : M Unit := do
  let market ← marketById marketId
  let rep ← (match market.report with
    | none => throwM Error.noReport
    | some r => pure r)
  unreserveCurrency market.creator cfg.validityBond
  let st ← getM
  let resolvedOutcome ← (match market.status with
    | MarketStatus.reported => pure rep.outcome
    | MarketStatus.disputed =>
        let ds := st.disputes marketId
        let numDisputes := ds.length % 2 ^ 16
        (match ds.get? (numDisputes - 1) with
         | none => throwM Error.panicked
         | some lastDispute => pure lastDispute.outcome)
    | _ => pure 69)
  (match market.status with
   | MarketStatus.reported =>
       if rep.by_ = market.oracle then unreserveCurrency market.creator cfg.oracleBond
       else do
         let imb ← slashReservedCurrency market.creator cfg.oracleBond
         resolveCreating rep.by_ imb
   | MarketStatus.disputed => do
       let st2 ← getM
       let ds := st2.disputes marketId
       let numDisputes := ds.length % 2 ^ 16
       let imb0 ← (if rep.outcome = resolvedOutcome then do
           unreserveCurrency market.creator cfg.oracleBond
           pure 0
         else slashReservedCurrency market.creator cfg.oracleBond)
       let res ← settleDisputesLoop cfg resolvedOutcome ((ds.take numDisputes).enum) [] imb0
       let divisor := res.1.length % 2 ^ 32
       if divisor = 0 then throwM Error.panicked
       else distributeRewards res.1 (res.2 / divisor) res.2
   | _ => pure ())
  destroyLosingShares marketId resolvedOutcome (List.range market.outcomes)
  let stf ← getM
  (match stf.markets marketId with
   | none => throwM Error.panicked
   | some m =>
       setM { stf with
         markets := upd stf.markets marketId
                      (some { m with
                              status := MarketStatus.resolved,
                              resolvedOutcome := some resolvedOutcome }) })

/-- `clear_auto_resolve`. -/
def clearAutoResolve (marketId : Nat) : M Unit := do
  let market ← marketById marketId
  (if market.status = MarketStatus.reported then
     match market.report with
     | none => throwM Error.noReport
     | some rep => do
         let st ← getM
         (match removeItem (st.marketIdsPerReportBlock rep.at_) marketId with
          | none => throwM Error.panicked
          | some l =>
              setM { st with
                marketIdsPerReportBlock := upd st.marketIdsPerReportBlock rep.at_ l })
   else pure ())
  (if market.status = MarketStatus.disputed then do
     let st2 ← getM
     let ds := st2.disputes marketId
     let numDisputes := ds.length % 2 ^ 16
     (match ds.get? (numDisputes - 1) with
      | none => throwM Error.panicked
      | some prev => do
          let st3 ← getM
          (match removeItem (st3.marketIdsPerDisputeBlock prev.at_) marketId with
           | none => throwM Error.panicked
           | some l =>
               setM { st3 with
                 marketIdsPerDisputeBlock := upd st3.marketIdsPerDisputeBlock
                                               prev.at_ l }))
   else pure ())

/-- The share-destruction loop of `admin_destroy_market` (every outcome). -/
def destroyAllOutcomes (marketId : Nat) : List Nat → M Unit
  | [] => pure ()
  | i :: rest => do
      destroyAllShares (marketOutcomeShareId marketId i)
      destroyAllOutcomes marketId rest

/-- `admin_destroy_market`. -/
def adminDestroyMarket (marketId : Nat) : M Unit := do
  let market ← marketById marketId
  clearAutoResolve marketId
  let st ← getM
  _ ← setM { st with markets := upd st.markets marketId none }
  destroyAllOutcomes marketId (List.range market.outcomes)

/-- `admin_move_market_to_closed`. -/
def adminMoveMarketToClosed (chain : Chain) (marketId : Nat) : M Unit := do
  let market ← marketById marketId
  let newEnd := (match market.end_ with
    | MarketEnd.block _ => MarketEnd.block chain.block
    | MarketEnd.timestamp _ => MarketEnd.timestamp chain.time)
  let st ← getM
  (match st.markets marketId with
   | none => throwM Error.panicked
   | some m =>
       setM { st with
         markets := upd st.markets marketId (some { m with end_ := newEnd }) })

/-- `admin_move_market_to_resolved`. -/
def adminMoveMarketToResolved (cfg : Config) (marketId : Nat) : M Unit := do
  let market ← marketById marketId
  ensureM (decide (market.status = MarketStatus.reported ∨
                   market.status = MarketStatus.disputed))
    (Error.other "not reported nor disputed")
  clearAutoResolve marketId
  internalResolve cfg marketId

/-! ### Auto-resolution scheduler (`on_finalize`) -/

/-- The report-bucket pass of `on_finalize`: look each market up (`expect` —
a missing market is a panic), skip it unless its status is still `Reported`,
otherwise resolve it (`expect` on failure). -/
def resolveReportedList (cfg : Config) : List Nat → M Unit
  | [] => pure ()
  | id :: rest => do
      let st ← getM
      (match st.markets id with
       | none => throwM Error.panicked
       | some market =>
           if market.status ≠ MarketStatus.reported then pure ()
           else expectOk (internalResolve cfg id))
      resolveReportedList cfg rest

/-- The dispute-bucket pass of `on_finalize`: resolve every listed market
unconditionally (`expect` on failure). -/
def resolveDisputedList (cfg : Config) : List Nat → M Unit
  | [] => pure ()
  | id :: rest => do
      expectOk (internalResolve cfg id)
      resolveDisputedList cfg rest

/-- `on_finalize(now)`. -/
def onFinalize (cfg : Config) (now : Nat) : M Unit := do
  if now ≤ cfg.disputePeriod then pure ()
  else do
    let st ← getM
    resolveReportedList cfg (st.marketIdsPerReportBlock (now - cfg.disputePeriod))
    let st2 ← getM
    resolveDisputedList cfg (st2.marketIdsPerDisputeBlock (now - cfg.disputePeriod))

/-! ### The module's transition system -/

/-- One externally triggered transition of the module: any dispatchable, with
arbitrary caller, arguments and chain context, or an `on_finalize` tick.  The
post-state is the state component of the call's result whether the call
succeeded or failed, since storage writes made before an error persist. -/
inductive Step (cfg : Config) : St → St → Prop
  | create (chain : Chain) (sender oracle : AccountId) (end_ : MarketEnd)
      (metadata : List Nat) (creation : MarketCreation) (categories : Nat) (st : St) :
      Step cfg st
        (createCategoricalMarket cfg chain sender oracle end_ metadata creation categories st).2
  | approve (marketId : Nat) (st : St) : Step cfg st (approveMarket cfg marketId st).2
  | reject (marketId : Nat) (st : St) : Step cfg st (rejectMarket cfg marketId st).2
  | cancel (sender : AccountId) (marketId : Nat) (st : St) :
      Step cfg st (cancelPendingMarket cfg sender marketId st).2
  | deployPool (marketId poolId : Nat) (st : St) :
      Step cfg st (deploySwapPoolForMarket marketId poolId st).2
  | buy (chain : Chain) (who : AccountId) (marketId amount : Nat) (st : St) :
      Step cfg st (doBuyCompleteSet chain who marketId amount st).2
  | sell (chain : Chain) (sender : AccountId) (marketId amount : Nat) (st : St) :
      Step cfg st (sellCompleteSet chain sender marketId amount st).2
  | report (chain : Chain) (sender : AccountId) (marketId outcome : Nat) (st : St) :
      Step cfg st (reportMarket cfg chain sender marketId outcome st).2
  | dispute (chain : Chain) (sender : AccountId) (marketId outcome : Nat) (st : St) :
      Step cfg st (disputeMarket cfg chain sender marketId outcome st).2
  | global (marketId : Nat) (st : St) : Step cfg st (globalDispute marketId st).2
  | redeem (sender : AccountId) (marketId : Nat) (st : St) :
      Step cfg st (redeemShares sender marketId st).2
  | destroy (marketId : Nat) (st : St) : Step cfg st (adminDestroyMarket marketId st).2
  | moveClosed (chain : Chain) (marketId : Nat) (st : St) :
      Step cfg st (adminMoveMarketToClosed chain marketId st).2
  | moveResolved (marketId : Nat) (st : St) :
      Step cfg st (adminMoveMarketToResolved cfg marketId st).2
  | finalize (now : Nat) (st : St) : Step cfg st (onFinalize cfg now st).2

/-- Reachability: finitely many module transitions from a given state. -/
def Reachable (cfg : Config) (st0 st : St) : Prop :=
  Relation.ReflTransGen (Step cfg) st0 st

/-- The dispute-ledger invariant of spec §8: for every market, no two adjacent
dispute records share an outcome, and the sequence length never exceeds the
configured maximum. -/
def DisputesWellFormed (cfg : Config) (st : St) : Prop :=
  ∀ id, (st.disputes id).length ≤ cfg.maxDisputes ∧
    (st.disputes id).Chain' (fun a b => a.outcome ≠ b.outcome)

/-! ### Unfolding lemmas for the primitives -/

theorem reserveCurrency_apply (a : AccountId) (n : Nat) (st : St) :
    reserveCurrency a n st =
      if st.free a < n then (Except.error Error.insufficientFunds, st)
      else (Except.ok (), { st with
              free := upd st.free a (st.free a - n),
              reserved := upd st.reserved a (st.reserved a + n) }) := by
  simp only [reserveCurrency, bind, M.bindImpl, getM]
  split <;> rfl

theorem unreserveCurrency_apply (a : AccountId) (n : Nat) (st : St) :
    unreserveCurrency a n st =
      (Except.ok (), { st with
        free := upd st.free a (st.free a + min n (st.reserved a)),
        reserved := upd st.reserved a (st.reserved a - min n (st.reserved a)) }) := rfl

theorem slashReservedCurrency_apply (a : AccountId) (n : Nat) (st : St) :
    slashReservedCurrency a n st =
      (Except.ok (min n (st.reserved a)),
       { st with reserved := upd st.reserved a (st.reserved a - min n (st.reserved a)) }) := rfl

theorem transferCurrency_apply (src dst : AccountId) (n : Nat) (st : St) :
    transferCurrency src dst n st =
      if st.free src < n then (Except.error Error.insufficientFunds, st)
      else (Except.ok (), { st with
              free := upd (upd st.free src (st.free src - n)) dst
                ((upd st.free src (st.free src - n)) dst + n) }) := by
  simp only [transferCurrency, bind, M.bindImpl, getM]
  split <;> rfl

theorem resolveCreating_apply (a : AccountId) (n : Nat) (st : St) :
    resolveCreating a n st =
      (Except.ok (), { st with free := upd st.free a (st.free a + n) }) := rfl

theorem depositShares_apply (sid : Asset) (a : AccountId) (n : Nat) (st : St) :
    depositShares sid a n st =
      (Except.ok (), { st with
        shares := upd st.shares sid (upd (st.shares sid) a (st.shares sid a + n)) }) := rfl

theorem slashShares_apply (sid : Asset) (a : AccountId) (n : Nat) (st : St) :
    slashShares sid a n st =
      (Except.ok (), { st with
        shares := upd st.shares sid
          (upd (st.shares sid) a (st.shares sid a - min n (st.shares sid a))) }) := rfl

theorem destroyAllShares_apply (sid : Asset) (st : St) :
    destroyAllShares sid st =
      (Except.ok (), { st with
        shares := fun s a => if s = sid then 0 else st.shares s a }) := rfl

theorem marketById_apply (marketId : Nat) (st : St) :
    marketById marketId st =
      (match st.markets marketId with
       | none => (Except.error Error.MarketDoesNotExist, st)
       | some m => (Except.ok m, st)) := by
  simp only [marketById, bind, M.bindImpl, getM]
  split <;> rename_i heq <;> simp only [heq] <;> rfl

theorem getNextMarketId_apply (st : St) :
    getNextMarketId st =
      if st.marketCount + 1 < 2 ^ 128 then
        (Except.ok st.marketCount, { st with marketCount := st.marketCount + 1 })
      else
        (Except.error (Error.other "Overflow when incrementing market count."), st) := by
  simp only [getNextMarketId, bind, M.bindImpl, getM]
  split <;> rfl

theorem expectOk_apply {α : Type} (x : M α) (st : St) :
    expectOk x st =
      (match x st with
       | (Except.ok a, st') => (Except.ok a, st')
       | (Except.error _, st') => (Except.error Error.panicked, st')) := rfl

/-! ### C1: `approve_market` -/

/-- A sample configuration (used by concrete witnesses). -/
def cfg0 : Config :=
  { reportingPeriod := 10, disputePeriod := 10, advisoryBond := 25,
    disputeBond := 5, disputeFactor := 2, maxDisputes := 6,
    oracleBond := 50, validityBond := 50, maxCategories := 8 }

/-- An already-`Active` advised market, used to show `approve_market` never
checks the status. -/
def mC1 : Market :=
  { creator := AccountId.user 1, creation := MarketCreation.advised,
    creatorFee := 0, oracle := AccountId.user 2, end_ := MarketEnd.block 100,
    metadata := [], marketType := MarketType.categorical,
    status := MarketStatus.active, report := none, categories := some 2,
    resolvedOutcome := none }

def stC1 : St :=
  { markets := fun id => if id = 0 then some mC1 else none,
    marketCount := 1,
    marketIdsPerReportBlock := fun _ => [],
    marketIdsPerDisputeBlock := fun _ => [],
    disputes := fun _ => [],
    marketToSwapPool := fun _ => none,
    free := fun _ => 0,
    reserved := fun _ => 100,
    shares := fun _ _ => 0 }

/-- C1 counterexample: market 0 exists with status `Active` (not `Proposed`),
yet `approve_market` succeeds instead of failing with a
`MarketNotProposed`-style error — the source has no status check at all. -/
theorem approve_market_not_proposed_counterexample :
    (stC1.markets 0).map Market.status = some MarketStatus.active ∧
    (approveMarket cfg0 0 stC1).1 = Except.ok () := by
  exact ⟨rfl, rfl⟩

/-- C1 (amended): for every market id present in the registry,
`approve_market` succeeds *regardless* of the market's status (the source
performs no `Proposed` check); it moves `min(AdvisoryBond, reserved)` of the
creator's reserved balance back to the creator's free balance and sets the
market's status to `Active`.  Only a missing market fails
(`MarketDoesNotExist`). -/
theorem approve_market_amended (cfg : Config) (st : St) (marketId : Nat)
    (m : Market) (h : st.markets marketId = some m) :
    ∃ st', approveMarket cfg marketId st = (Except.ok (), st') ∧
      st'.markets marketId = some { m with status := MarketStatus.active } ∧
      st'.free m.creator
        = st.free m.creator + min cfg.advisoryBond (st.reserved m.creator) ∧
      st'.reserved m.creator
        = st.reserved m.creator - min cfg.advisoryBond (st.reserved m.creator) := by
  simp only [approveMarket, M.bind_apply, marketById_apply, h,
    unreserveCurrency_apply, getM_apply, setM_apply]
  refine ⟨_, rfl, ?_, ?_, ?_⟩ <;> simp

theorem approve_market_amended_witness :
    ∃ st', approveMarket cfg0 0 stC1 = (Except.ok (), st') ∧
      st'.markets 0 = some { mC1 with status := MarketStatus.active } ∧
      st'.free mC1.creator
        = stC1.free mC1.creator + min cfg0.advisoryBond (stC1.reserved mC1.creator) ∧
      st'.reserved mC1.creator
        = stC1.reserved mC1.creator - min cfg0.advisoryBond (stC1.reserved mC1.creator) :=
  approve_market_amended cfg0 stC1 0 mC1 rfl

/-! ### C4: the `NoWinningBalance` guard of `redeem_shares` is vacuous -/

/-- No call of `redeem_shares` can ever return `NoWinningBalance`: the share
balance type is unsigned, so the guard `winning_balance >= 0` always passes. -/
theorem redeemShares_never_NoWinningBalance (sender : AccountId) (marketId : Nat)
    (st : St) :
    (redeemShares sender marketId st).1 ≠ Except.error Error.NoWinningBalance := by
  simp only [redeemShares, M.bind_apply, marketById_apply, ensureM_apply,
    getM_apply, setM_apply, slashShares_apply, transferCurrency_apply]
  rcases h0 : st.markets marketId with _ | m
  · simp
  · by_cases hs : m.status = MarketStatus.resolved
    · rcases hro : m.resolvedOutcome with _ | ro
      · simp [hs, hro]
      · simp only [hs, hro, decide_True, if_true, M.bind_apply, getM_apply,
          ensureM_apply, slashShares_apply, transferCurrency_apply, setM_apply,
          Nat.zero_le]
        split <;> simp_all
        · split <;> simp
        · rename_i heq
          rcases heq with ⟨h1, -⟩
          split at h1
          · exact absurd h1 (by simp)
          · injection h1 with h1'
            subst h1'
            simp
    · simp [hs]

/-- A resolved two-outcome market (winning outcome 1). -/
def mC4 : Market :=
  { creator := AccountId.user 1, creation := MarketCreation.permissionless,
    creatorFee := 0, oracle := AccountId.user 2, end_ := MarketEnd.block 100,
    metadata := [], marketType := MarketType.categorical,
    status := MarketStatus.resolved,
    report := some { at_ := 100, by_ := AccountId.user 2, outcome := 1 },
    categories := some 2, resolvedOutcome := some 1 }

def stC4 : St :=
  { markets := fun id => if id = 0 then some mC4 else none,
    marketCount := 1,
    marketIdsPerReportBlock := fun _ => [],
    marketIdsPerDisputeBlock := fun _ => [],
    disputes := fun _ => [],
    marketToSwapPool := fun _ => none,
    free := fun _ => 0,
    reserved := fun _ => 0,
    shares := fun _ _ => 0 }

/-- C4: the no-winning-balance check of `redeem_shares` never rejects — the
unsigned guard `winning_balance >= 0` always passes, on every call — and a
caller holding zero winning-outcome shares on a `Resolved` market succeeds:
zero shares are burned and a zero-amount transfer is made, so all free,
reserved and share balances are left exactly as they were. -/
theorem redeem_shares_zero_balance_succeeds (sender : AccountId) (marketId : Nat)
    (st : St) (m : Market) (ro : Nat)
    (h : st.markets marketId = some m) (hs : m.status = MarketStatus.resolved)
    (hro : m.resolvedOutcome = some ro)
    (hz : st.shares (marketOutcomeShareId marketId ro) sender = 0) :
    (∀ (s' : AccountId) (id' : Nat) (st0 : St),
       (redeemShares s' id' st0).1 ≠ Except.error Error.NoWinningBalance) ∧
    ∃ st', redeemShares sender marketId st = (Except.ok (), st') ∧
      st'.free = st.free ∧ st'.reserved = st.reserved ∧ st'.shares = st.shares := by
  refine ⟨fun s' id' st0 => redeemShares_never_NoWinningBalance s' id' st0, ?_⟩
  simp only [redeemShares, M.bind_apply, marketById_apply, h, ensureM_apply,
    getM_apply, hs, hro, eq_self_iff_true, decide_True, if_true,
    slashShares_apply, transferCurrency_apply, setM_apply, Nat.zero_le, hz,
    Nat.le_zero, Nat.sub_zero, Nat.add_zero, Nat.not_lt_zero, if_false,
    Nat.zero_sub, Nat.min_self, upd_self]
  refine ⟨_, rfl, ?_, ?_, ?_⟩
  · simp [hz, upd_self]
  · simp [hz, upd_self]
  · rw [← hz, upd_self, upd_self]

theorem redeem_shares_zero_balance_succeeds_witness :
    (∀ (s' : AccountId) (id' : Nat) (st0 : St),
       (redeemShares s' id' st0).1 ≠ Except.error Error.NoWinningBalance) ∧
    ∃ st', redeemShares (AccountId.user 3) 0 stC4 = (Except.ok (), st') ∧
      st'.free = stC4.free ∧ st'.reserved = stC4.reserved ∧
      st'.shares = stC4.shares :=
  redeem_shares_zero_balance_succeeds (AccountId.user 3) 0 stC4 mC4 1 rfl rfl rfl rfl

/-! ### Loop lemmas for the complete-set operations -/

/-- If some listed outcome's share balance is insufficient, the check loop of
`sell_complete_set` rejects with `InsufficientShareBalance` and leaves the
state untouched. -/
theorem checkAllShares_fail (marketId : Nat) (sender : AccountId) (amount : Nat)
    (l : List Nat) (st : St)
    (hex : ∃ i ∈ l, st.shares (marketOutcomeShareId marketId i) sender < amount) :
    checkAllShares marketId sender amount l st
      = (Except.error Error.InsufficientShareBalance, st) := by
  induction l with
  | nil => rcases hex with ⟨i, hi, -⟩; cases hi
  | cons j rest ih =>
      simp only [checkAllShares, M.bind_apply, getM_apply, ensureM_apply]
      by_cases hj : amount ≤ st.shares (marketOutcomeShareId marketId j) sender
      · have : ∃ i ∈ rest, st.shares (marketOutcomeShareId marketId i) sender < amount := by
          rcases hex with ⟨i, hi, hlt⟩
          rcases List.mem_cons.mp hi with rfl | hmem
          · exact absurd hj (Nat.not_le_of_lt hlt)
          · exact ⟨i, hmem, hlt⟩
        simp [hj, ih this]
      · simp [hj]

/-- If every listed outcome's share balance is sufficient, the check loop
succeeds without changing the state. -/
theorem checkAllShares_ok (marketId : Nat) (sender : AccountId) (amount : Nat)
    (l : List Nat) (st : St)
    (hall : ∀ i ∈ l, amount ≤ st.shares (marketOutcomeShareId marketId i) sender) :
    checkAllShares marketId sender amount l st = (Except.ok (), st) := by
  induction l with
  | nil => rfl
  | cons j rest ih =>
      have hj := hall j (List.mem_cons_self j rest)
      simp only [checkAllShares, M.bind_apply, getM_apply, ensureM_apply]
      simp [hj, ih fun i hi => hall i (List.mem_cons_of_mem j hi)]

/-- C5: if the seller's free balance of any outcome's share is below the
requested amount (while the market exists, trading is open and the custodial
account is funded), `sell_complete_set` fails with `InsufficientShareBalance`
and the state is *exactly* unchanged: nothing is burned, nothing transferred
— all outcomes are checked before any mutation. -/
theorem sell_complete_set_all_or_nothing (chain : Chain) (sender : AccountId)
    (marketId amount : Nat) (st : St) (m : Market)
    (h : st.markets marketId = some m)
    (hactive : isMarketActive chain m.end_ = true)
    (hfund : amount ≤ st.free (marketAccount marketId))
    (hex : ∃ i, i < m.outcomes ∧
      st.shares (marketOutcomeShareId marketId i) sender < amount) :
    sellCompleteSet chain sender marketId amount st
      = (Except.error Error.InsufficientShareBalance, st) := by
  have hex' : ∃ i ∈ List.range m.outcomes,
      st.shares (marketOutcomeShareId marketId i) sender < amount := by
    rcases hex with ⟨i, hi, hlt⟩
    exact ⟨i, List.mem_range.mpr hi, hlt⟩
  simp only [sellCompleteSet, M.bind_apply, marketById_apply, h, ensureM_apply,
    getM_apply, hactive, if_true, hfund, decide_True, decide_eq_true_eq]
  simp [hfund, checkAllShares_fail marketId sender amount _ st hex']

def mC5 : Market :=
  { creator := AccountId.user 1, creation := MarketCreation.permissionless,
    creatorFee := 0, oracle := AccountId.user 2, end_ := MarketEnd.block 100,
    metadata := [], marketType := MarketType.categorical,
    status := MarketStatus.active, report := none, categories := some 2,
    resolvedOutcome := none }

/-- A state where the seller holds outcome-0 shares but no outcome-1 shares. -/
def stC5 : St :=
  { markets := fun id => if id = 0 then some mC5 else none,
    marketCount := 1,
    marketIdsPerReportBlock := fun _ => [],
    marketIdsPerDisputeBlock := fun _ => [],
    disputes := fun _ => [],
    marketToSwapPool := fun _ => none,
    free := fun a => if a = marketAccount 0 then 10 else 0,
    reserved := fun _ => 0,
    shares := fun sid _ =>
      if sid = marketOutcomeShareId 0 0 then 10 else 0 }

theorem sell_complete_set_all_or_nothing_witness :
    sellCompleteSet { block := 5, time := 0 } (AccountId.user 3) 0 5 stC5
      = (Except.error Error.InsufficientShareBalance, stC5) :=
  sell_complete_set_all_or_nothing { block := 5, time := 0 } (AccountId.user 3)
    0 5 stC5 mC5 rfl rfl (by decide)
    ⟨1, by decide, by decide⟩

theorem marketOutcomeShareId_inj (marketId i j : Nat)
    (h : marketOutcomeShareId marketId i = marketOutcomeShareId marketId j) :
    i = j := by
  simpa [marketOutcomeShareId] using h

/-- Running the mint loop: it always succeeds, touches only the share ledger,
adds `amt` to the buyer's balance of every listed outcome share, and leaves
every other share balance alone. -/
theorem depositAllShares_run (marketId : Nat) (who : AccountId) (amt : Nat)
    (l : List Nat) (st : St) (hnd : l.Nodup) :
    ∃ sh, depositAllShares marketId who amt l st
        = (Except.ok (), { st with shares := sh }) ∧
      (∀ i ∈ l, sh (marketOutcomeShareId marketId i) who
         = st.shares (marketOutcomeShareId marketId i) who + amt) ∧
      (∀ sid a, (a ≠ who ∨ ∀ i ∈ l, sid ≠ marketOutcomeShareId marketId i) →
         sh sid a = st.shares sid a) := by
  induction l generalizing st with
  | nil =>
      exact ⟨st.shares, rfl, by simp, fun _ _ _ => rfl⟩
  | cons j rest ih =>
      have hj : j ∉ rest := (List.nodup_cons.mp hnd).1
      set st1 : St := { st with
        shares := upd st.shares (marketOutcomeShareId marketId j)
          (upd (st.shares (marketOutcomeShareId marketId j)) who
            (st.shares (marketOutcomeShareId marketId j) who + amt)) } with hst1
      obtain ⟨sh, hrun, hin, hout⟩ := ih st1 (List.nodup_cons.mp hnd).2
      refine ⟨sh, ?_, ?_, ?_⟩
      · simp only [depositAllShares, M.bind_apply, depositShares_apply]
        exact hrun
      · intro i hi
        rcases List.mem_cons.mp hi with rfl | hmem
        · have : sh (marketOutcomeShareId marketId i) who
              = st1.shares (marketOutcomeShareId marketId i) who := by
            refine hout _ _ (Or.inr fun i' hi' hEq => ?_)
            exact hj ((marketOutcomeShareId_inj marketId i i' hEq) ▸ hi')
          rw [this, hst1]
          simp
        · rw [hin i hmem, hst1]
          have hne : marketOutcomeShareId marketId i ≠ marketOutcomeShareId marketId j :=
            fun hEq => hj ((marketOutcomeShareId_inj marketId i j hEq) ▸ hmem)
          simp [hne]
      · intro sid a hcond
        have hcond' : a ≠ who ∨ ∀ i ∈ rest, sid ≠ marketOutcomeShareId marketId i := by
          rcases hcond with hna | hall
          · exact Or.inl hna
          · exact Or.inr fun i hi => hall i (List.mem_cons_of_mem j hi)
        rw [hout sid a hcond', hst1]
        rcases hcond with hna | hall
        · by_cases hsid : sid = marketOutcomeShareId marketId j
          · subst hsid; simp [hna]
          · simp [hsid]
        · have hsid := hall j (List.mem_cons_self j rest)
          simp [hsid]

/-- Running the burn loop: it always succeeds, touches only the share ledger,
subtracts `min amt balance` from the seller's balance of every listed outcome
share, and leaves every other share balance alone. -/
theorem slashAllShares_run (marketId : Nat) (who : AccountId) (amt : Nat)
    (l : List Nat) (st : St) (hnd : l.Nodup) :
    ∃ sh, slashAllShares marketId who amt l st
        = (Except.ok (), { st with shares := sh }) ∧
      (∀ i ∈ l, sh (marketOutcomeShareId marketId i) who
         = st.shares (marketOutcomeShareId marketId i) who
           - min amt (st.shares (marketOutcomeShareId marketId i) who)) ∧
      (∀ sid a, (a ≠ who ∨ ∀ i ∈ l, sid ≠ marketOutcomeShareId marketId i) →
         sh sid a = st.shares sid a) := by
  induction l generalizing st with
  | nil =>
      exact ⟨st.shares, rfl, by simp, fun _ _ _ => rfl⟩
  | cons j rest ih =>
      have hj : j ∉ rest := (List.nodup_cons.mp hnd).1
      set st1 : St := { st with
        shares := upd st.shares (marketOutcomeShareId marketId j)
          (upd (st.shares (marketOutcomeShareId marketId j)) who
            (st.shares (marketOutcomeShareId marketId j) who
              - min amt (st.shares (marketOutcomeShareId marketId j) who))) } with hst1
      obtain ⟨sh, hrun, hin, hout⟩ := ih st1 (List.nodup_cons.mp hnd).2
      refine ⟨sh, ?_, ?_, ?_⟩
      · simp only [slashAllShares, M.bind_apply, slashShares_apply]
        exact hrun
      · intro i hi
        rcases List.mem_cons.mp hi with rfl | hmem
        · have : sh (marketOutcomeShareId marketId i) who
              = st1.shares (marketOutcomeShareId marketId i) who := by
            refine hout _ _ (Or.inr fun i' hi' hEq => ?_)
            exact hj ((marketOutcomeShareId_inj marketId i i' hEq) ▸ hi')
          rw [this, hst1]
          simp
        · rw [hin i hmem, hst1]
          have hne : marketOutcomeShareId marketId i ≠ marketOutcomeShareId marketId j :=
            fun hEq => hj ((marketOutcomeShareId_inj marketId i j hEq) ▸ hmem)
          simp [hne]
      · intro sid a hcond
        have hcond' : a ≠ who ∨ ∀ i ∈ rest, sid ≠ marketOutcomeShareId marketId i := by
          rcases hcond with hna | hall
          · exact Or.inl hna
          · exact Or.inr fun i hi => hall i (List.mem_cons_of_mem j hi)
        rw [hout sid a hcond', hst1]
        rcases hcond with hna | hall
        · by_cases hsid : sid = marketOutcomeShareId marketId j
          · subst hsid; simp [hna]
          · simp [hsid]
        · have hsid := hall j (List.mem_cons_self j rest)
          simp [hsid]

/-! ### C10: the trading gate tests only `end`, never status -/

/-- C10: for a market in *any* status (the status hypothesis is deliberately
absent — `is_market_active` reads only `end`), buying and selling complete
sets are rejected with `MarketNotActive` exactly when the current time has
reached `end`, and succeed whenever `end` is still in the future and the
balance preconditions hold — including for `Proposed`, `Reported` and
`Disputed` markets. -/
theorem trading_gate_ignores_status (chain : Chain) (sender : AccountId)
    (marketId amount : Nat) (st : St) (m : Market)
    (h : st.markets marketId = some m)
    (hbal : amount ≤ st.free sender) :
    (isMarketActive chain m.end_ = false →
      (doBuyCompleteSet chain sender marketId amount st).1
          = Except.error Error.MarketNotActive ∧
      (sellCompleteSet chain sender marketId amount st).1
          = Except.error Error.MarketNotActive) ∧
    (isMarketActive chain m.end_ = true →
      ∃ st', doBuyCompleteSet chain sender marketId amount st
        = (Except.ok (), st')) ∧
    (isMarketActive chain m.end_ = true →
      amount ≤ st.free (marketAccount marketId) →
      (∀ i, i < m.outcomes →
        amount ≤ st.shares (marketOutcomeShareId marketId i) sender) →
      ∃ st', sellCompleteSet chain sender marketId amount st
        = (Except.ok (), st')) := by
  refine ⟨fun hclosed => ⟨?_, ?_⟩, fun hopen => ?_, fun hopen hfund hshares => ?_⟩
  · simp [doBuyCompleteSet, M.bind_apply, getM_apply, ensureM_apply,
      marketById_apply, h, hbal, hclosed]
  · simp [sellCompleteSet, M.bind_apply, marketById_apply, h, ensureM_apply,
      hclosed]
  · set st1 : St := { st with
      free := upd (upd st.free sender (st.free sender - amount)) (marketAccount marketId) ((upd st.free sender (st.free sender - amount)) (marketAccount marketId) + amount) } with hst1
    obtain ⟨sh, hrun, -, -⟩ := depositAllShares_run marketId sender amount
      (List.range m.outcomes) st1 (List.nodup_range m.outcomes)
    refine ⟨{ st1 with shares := sh }, ?_⟩
    simp only [doBuyCompleteSet, M.bind_apply, getM_apply, ensureM_apply,
      marketById_apply, h, hbal, hopen, decide_True, if_true,
      transferCurrency_apply, decide_eq_true_eq]
    rw [if_neg (Nat.not_lt.mpr hbal)]
    exact hrun
  · have hall : ∀ i ∈ List.range m.outcomes,
        amount ≤ st.shares (marketOutcomeShareId marketId i) sender :=
      fun i hi => hshares i (List.mem_range.mp hi)
    obtain ⟨sh, hrun, -, -⟩ := slashAllShares_run marketId sender amount
      (List.range m.outcomes) st (List.nodup_range m.outcomes)
    simp only [sellCompleteSet, M.bind_apply, marketById_apply, h, ensureM_apply,
      getM_apply, hopen, if_true, decide_eq_true_eq]
    simp only [hfund, if_true, checkAllShares_ok marketId sender amount _ st hall,
      hrun, transferCurrency_apply]
    rw [if_neg (Nat.not_lt.mpr hfund)]
    exact ⟨_, rfl⟩

def mC10 : Market :=
  { creator := AccountId.user 1, creation := MarketCreation.permissionless,
    creatorFee := 0, oracle := AccountId.user 2, end_ := MarketEnd.block 100,
    metadata := [], marketType := MarketType.categorical,
    status := MarketStatus.disputed,
    report := some { at_ := 50, by_ := AccountId.user 2, outcome := 0 },
    categories := some 2, resolvedOutcome := none }

def stC10 : St :=
  { markets := fun id => if id = 0 then some mC10 else none,
    marketCount := 1,
    marketIdsPerReportBlock := fun _ => [],
    marketIdsPerDisputeBlock := fun _ => [],
    disputes := fun _ => [],
    marketToSwapPool := fun _ => none,
    free := fun a => if a = AccountId.user 3 then 50
      else if a = marketAccount 0 then 10 else 0,
    reserved := fun _ => 0,
    shares := fun _ a => if a = AccountId.user 3 then 10 else 0 }

theorem trading_gate_ignores_status_witness :
    (isMarketActive { block := 5, time := 0 } mC10.end_ = false →
      (doBuyCompleteSet { block := 5, time := 0 } (AccountId.user 3) 0 5 stC10).1
          = Except.error Error.MarketNotActive ∧
      (sellCompleteSet { block := 5, time := 0 } (AccountId.user 3) 0 5 stC10).1
          = Except.error Error.MarketNotActive) ∧
    (isMarketActive { block := 5, time := 0 } mC10.end_ = true →
      ∃ st', doBuyCompleteSet { block := 5, time := 0 } (AccountId.user 3) 0 5 stC10
        = (Except.ok (), st')) ∧
    (isMarketActive { block := 5, time := 0 } mC10.end_ = true →
      5 ≤ stC10.free (marketAccount 0) →
      (∀ i, i < mC10.outcomes →
        5 ≤ stC10.shares (marketOutcomeShareId 0 i) (AccountId.user 3)) →
      ∃ st', sellCompleteSet { block := 5, time := 0 } (AccountId.user 3) 0 5 stC10
        = (Except.ok (), st')) :=
  trading_gate_ignores_status { block := 5, time := 0 } (AccountId.user 3) 0 5
    stC10 mC10 rfl (by decide)

/-! ### C9: buy-then-sell round trip -/

/-- C9: while trading is open, buying a complete set of `n` shares and
immediately selling `n` shares returns the buyer to the original currency
balance, restores the market's custodial account, and leaves every
outcome-share balance of the buyer unchanged. -/
theorem buy_then_sell_round_trip (chain : Chain) (sender : AccountId)
    (marketId n : Nat) (st : St) (m : Market)
    (h : st.markets marketId = some m)
    (hactive : isMarketActive chain m.end_ = true)
    (hbal : n ≤ st.free sender)
    (hsm : sender ≠ marketAccount marketId) :
    ∃ st1 st2,
      doBuyCompleteSet chain sender marketId n st = (Except.ok (), st1) ∧
      sellCompleteSet chain sender marketId n st1 = (Except.ok (), st2) ∧
      st2.free sender = st.free sender ∧
      st2.free (marketAccount marketId) = st.free (marketAccount marketId) ∧
      (∀ i, i < m.outcomes →
        st2.shares (marketOutcomeShareId marketId i) sender
          = st.shares (marketOutcomeShareId marketId i) sender) := by
  set stT : St := { st with
    free := upd (upd st.free sender (st.free sender - n)) (marketAccount marketId) ((upd st.free sender (st.free sender - n)) (marketAccount marketId) + n) } with hstT
  obtain ⟨sh1, hrun1, hin1, hout1⟩ := depositAllShares_run marketId sender n
    (List.range m.outcomes) stT (List.nodup_range m.outcomes)
  have hbuy : doBuyCompleteSet chain sender marketId n st
      = (Except.ok (), { stT with shares := sh1 }) := by
    simp only [doBuyCompleteSet, M.bind_apply, getM_apply, ensureM_apply,
      marketById_apply, h, hbal, hactive, decide_True, if_true,
      transferCurrency_apply, decide_eq_true_eq]
    rw [if_neg (Nat.not_lt.mpr hbal)]
    exact hrun1
  set stB : St := { stT with shares := sh1 } with hstB
  have hmB : stB.markets marketId = some m := h
  have hfreeB_macc : stB.free (marketAccount marketId)
      = st.free (marketAccount marketId) + n := by
    simp [hstB, hstT, upd, Ne.symm hsm]
  have hfreeB_sender : stB.free sender = st.free sender - n := by
    simp [hstB, hstT, upd, hsm]
  have hsharesB : ∀ i ∈ List.range m.outcomes,
      stB.shares (marketOutcomeShareId marketId i) sender
        = st.shares (marketOutcomeShareId marketId i) sender + n := by
    intro i hi
    have := hin1 i hi
    simpa [hstB, hstT] using this
  have hallB : ∀ i ∈ List.range m.outcomes,
      n ≤ stB.shares (marketOutcomeShareId marketId i) sender := by
    intro i hi
    rw [hsharesB i hi]
    exact Nat.le_add_left n _
  obtain ⟨sh2, hrun2, hin2, hout2⟩ := slashAllShares_run marketId sender n
    (List.range m.outcomes) stB (List.nodup_range m.outcomes)
  have hfundB : n ≤ stB.free (marketAccount marketId) := by
    rw [hfreeB_macc]
    exact Nat.le_add_left n _
  set stS : St := { stB with shares := sh2 } with hstS
  have hsell : sellCompleteSet chain sender marketId n stB
      = (Except.ok (), { stS with
          free := upd (upd stS.free (marketAccount marketId) (stS.free (marketAccount marketId) - n)) sender ((upd stS.free (marketAccount marketId) (stS.free (marketAccount marketId) - n)) sender + n) }) := by
    simp only [sellCompleteSet, M.bind_apply, marketById_apply, h, ensureM_apply,
      getM_apply, hactive, if_true, decide_eq_true_eq]
    simp only [hfundB, if_true, checkAllShares_ok marketId sender n _ stB hallB,
      hrun2, transferCurrency_apply]
    have hfundS : ¬ stS.free (marketAccount marketId) < n := Nat.not_lt.mpr hfundB
    rw [if_neg hfundS]
  refine ⟨stB, _, hbuy, hsell, ?_, ?_, ?_⟩
  · have hS : stS.free sender = st.free sender - n := hfreeB_sender
    simp [upd, hsm, Ne.symm hsm, hS, Nat.sub_add_cancel hbal]
  · have hS : stS.free (marketAccount marketId)
        = st.free (marketAccount marketId) + n := hfreeB_macc
    simp [upd, hsm, Ne.symm hsm, hS]
  · intro i hi
    have h2 := hin2 i (List.mem_range.mpr hi)
    have h1 := hsharesB i (List.mem_range.mpr hi)
    simp only [hstS]
    rw [h2, h1]
    simp

def stC9 : St :=
  { markets := fun id => if id = 0 then some mC5 else none,
    marketCount := 1,
    marketIdsPerReportBlock := fun _ => [],
    marketIdsPerDisputeBlock := fun _ => [],
    disputes := fun _ => [],
    marketToSwapPool := fun _ => none,
    free := fun a => if a = AccountId.user 3 then 40 else 0,
    reserved := fun _ => 0,
    shares := fun _ _ => 0 }

theorem buy_then_sell_round_trip_witness :
    ∃ st1 st2,
      doBuyCompleteSet { block := 5, time := 0 } (AccountId.user 3) 0 7 stC9
        = (Except.ok (), st1) ∧
      sellCompleteSet { block := 5, time := 0 } (AccountId.user 3) 0 7 st1
        = (Except.ok (), st2) ∧
      st2.free (AccountId.user 3) = stC9.free (AccountId.user 3) ∧
      st2.free (marketAccount 0) = stC9.free (marketAccount 0) ∧
      (∀ i, i < mC5.outcomes →
        st2.shares (marketOutcomeShareId 0 i) (AccountId.user 3)
          = stC9.shares (marketOutcomeShareId 0 i) (AccountId.user 3)) :=
  buy_then_sell_round_trip { block := 5, time := 0 } (AccountId.user 3) 0 7 stC9
    mC5 rfl rfl (by decide) (by decide)

/-! ### Run lemmas for the resolution loops -/

/-- The per-dispute settlement loop always succeeds, only moves currency
(free/reserved), and returns as the correct-reporter list the initial
accumulator extended by the author of every processed dispute whose outcome
equals the resolved one, in order. -/
theorem settleDisputesLoop_run (cfg : Config) (ro : Nat)
    (l : List (Nat × MarketDispute)) (correct : List AccountId) (overall : Nat)
    (st : St) :
    ∃ fr rs overall', settleDisputesLoop cfg ro l correct overall st
      = (Except.ok
          (correct ++ (l.filter (fun p => p.2.outcome = ro)).map (fun p => p.2.by_),
           overall'),
         { st with free := fr, reserved := rs }) := by
  induction l generalizing correct overall st with
  | nil => exact ⟨st.free, st.reserved, overall, by simp [settleDisputesLoop]⟩
  | cons p rest ih =>
      rcases p with ⟨i, d⟩
      by_cases hd : d.outcome = ro
      · obtain ⟨fr, rs, ov, hrec⟩ := ih (correct ++ [d.by_]) overall
          { st with
            free := upd st.free d.by_ (st.free d.by_ + min (cfg.disputeBond + cfg.disputeFactor * i) (st.reserved d.by_)),
            reserved := upd st.reserved d.by_ (st.reserved d.by_ - min (cfg.disputeBond + cfg.disputeFactor * i) (st.reserved d.by_)) }
        refine ⟨fr, rs, ov, ?_⟩
        simp only [settleDisputesLoop, hd, if_true, M.bind_apply,
          unreserveCurrency_apply]
        rw [hrec]
        simp [hd, List.append_assoc]
      · obtain ⟨fr, rs, ov, hrec⟩ := ih correct
          (overall + min (cfg.disputeBond + cfg.disputeFactor * i) (st.reserved d.by_))
          { st with
            reserved := upd st.reserved d.by_ (st.reserved d.by_ - min (cfg.disputeBond + cfg.disputeFactor * i) (st.reserved d.by_)) }
        refine ⟨fr, rs, ov, ?_⟩
        simp only [settleDisputesLoop, hd, if_false, M.bind_apply,
          slashReservedCurrency_apply]
        rw [hrec]
        simp [hd]

/-- The reward loop always succeeds and only deposits into free balances. -/
theorem distributeRewards_run (l : List AccountId) (per overall : Nat) (st : St) :
    ∃ fr, distributeRewards l per overall st = (Except.ok (), { st with free := fr }) := by
  induction l generalizing overall st with
  | nil => exact ⟨st.free, by simp [distributeRewards]⟩
  | cons a rest ih =>
      obtain ⟨fr, hrec⟩ := ih (overall - min per overall)
        { st with free := upd st.free a (st.free a + min per overall) }
      refine ⟨fr, ?_⟩
      simp only [distributeRewards, M.bind_apply, resolveCreating_apply]
      rw [hrec]

/-- The share-cleanup loop always succeeds and only touches the share ledger. -/
theorem destroyLosingShares_run (marketId ro : Nat) (l : List Nat) (st : St) :
    ∃ sh, destroyLosingShares marketId ro l st = (Except.ok (), { st with shares := sh }) := by
  induction l generalizing st with
  | nil => exact ⟨st.shares, by simp [destroyLosingShares]⟩
  | cons i rest ih =>
      by_cases hi : i = ro
      · obtain ⟨sh, hrec⟩ := ih st
        refine ⟨sh, ?_⟩
        simp only [destroyLosingShares, hi, if_true, M.bind_apply, M.pure_apply]
        exact hrec
      · obtain ⟨sh, hrec⟩ := ih
          { st with shares := fun s a => if s = marketOutcomeShareId marketId i then 0 else st.shares s a }
        refine ⟨sh, ?_⟩
        simp only [destroyLosingShares, M.bind_apply, destroyAllShares_apply]
        rw [if_neg hi]
        simp only [M.bind_apply, destroyAllShares_apply]
        exact hrec

/-- The loop of `admin_destroy_market` always succeeds and only touches the
share ledger. -/
theorem destroyAllOutcomes_run (marketId : Nat) (l : List Nat) (st : St) :
    ∃ sh, destroyAllOutcomes marketId l st = (Except.ok (), { st with shares := sh }) := by
  induction l generalizing st with
  | nil => exact ⟨st.shares, by simp [destroyAllOutcomes]⟩
  | cons i rest ih =>
      obtain ⟨sh, hrec⟩ := ih
        { st with shares := fun s a => if s = marketOutcomeShareId marketId i then 0 else st.shares s a }
      refine ⟨sh, ?_⟩
      simp only [destroyAllOutcomes, M.bind_apply, destroyAllShares_apply]
      exact hrec

/-! ### The `Disputed` resolution path -/

/-- Indexing `disputes[(num_disputes as usize) - 1]` hits the last dispute
whenever the sequence is non-empty and shorter than `2^16` (so the `u16` cast
is lossless). -/
theorem dispute_get_last (ds : List MarketDispute) (hne : ds ≠ [])
    (hlen : ds.length < 2 ^ 16) :
    ds.get? (ds.length % 2 ^ 16 - 1) = some (ds.getLast hne) := by
  rw [Nat.mod_eq_of_lt hlen]
  have hlt : ds.length - 1 < ds.length :=
    Nat.sub_lt (List.length_pos.mpr hne) Nat.one_pos
  rw [List.get?_eq_get hlt]
  congr 1
  exact (List.getLast_eq_get ds hne).symm

/-- The correct-reporter list computed by the settlement loop over the full
dispute sequence is non-empty: the last dispute's outcome is the resolved
outcome. -/
theorem correct_reporters_ne_nil (ds : List MarketDispute) (hne : ds ≠ [])
    (hlen : ds.length < 2 ^ 16) :
    (((ds.take (ds.length % 2 ^ 16)).enum.filter
        (fun p => p.2.outcome = (ds.getLast hne).outcome)).map
      (fun p => p.2.by_)) ≠ [] := by
  rw [Nat.mod_eq_of_lt hlen, List.take_length]
  intro hmap
  have hfil := List.map_eq_nil.mp hmap
  have hget : ds.get? (ds.length - 1) = some (ds.getLast hne) := by
    have h := dispute_get_last ds hne hlen
    rwa [Nat.mod_eq_of_lt hlen] at h
  have hmem : (ds.length - 1, ds.getLast hne) ∈ ds.enum :=
    List.mem_enum_iff_get?.mpr hget
  have := List.filter_eq_nil.mp hfil _ hmem
  simp at this

/-- Fully characterizes a `Disputed` resolution: under the reachable-state
side conditions (non-empty dispute sequence of length < 2^16, existing market
with a report), `internal_resolve` succeeds, stores the *last* dispute's
outcome as `resolved_outcome`, sets the status to `Resolved`, and leaves the
dispute ledger, both scheduling indices and every other market unchanged. -/
theorem internalResolve_disputed_eq (cfg : Config) (marketId : Nat) (st : St)
    (m : Market) (r : Report)
    (h0 : st.markets marketId = some m)
    (hstat : m.status = MarketStatus.disputed)
    (hrep : m.report = some r)
    (hne : st.disputes marketId ≠ [])
    (hlen : (st.disputes marketId).length < 2 ^ 16) :
    ∃ st', internalResolve cfg marketId st = (Except.ok (), st') ∧
      st'.markets marketId = some { m with
        status := MarketStatus.resolved,
        resolvedOutcome := some (((st.disputes marketId).getLast hne).outcome) } ∧
      st'.disputes = st.disputes ∧
      st'.marketIdsPerReportBlock = st.marketIdsPerReportBlock ∧
      st'.marketIdsPerDisputeBlock = st.marketIdsPerDisputeBlock ∧
      (∀ j, j ≠ marketId → st'.markets j = st.markets j) := by
  have hlast := dispute_get_last (st.disputes marketId) hne hlen
  have hCne := correct_reporters_ne_nil (st.disputes marketId) hne hlen
  set ro : Nat := ((st.disputes marketId).getLast hne).outcome with hro
  set C : List AccountId :=
    (((st.disputes marketId).take ((st.disputes marketId).length % 2 ^ 16)).enum.filter
        (fun p => p.2.outcome = ro)).map (fun p => p.2.by_) with hC
  have hClen : C.length % 2 ^ 32 ≠ 0 := by
    have h1 : C.length
        ≤ ((st.disputes marketId).take ((st.disputes marketId).length % 2 ^ 16)).enum.length := by
      rw [hC, List.length_map]
      exact List.length_filter_le _ _
    have h2 : ((st.disputes marketId).take ((st.disputes marketId).length % 2 ^ 16)).enum.length
        ≤ (st.disputes marketId).length := by
      rw [List.enum_length, List.length_take]
      exact min_le_right _ _
    have hlt32 : C.length < 2 ^ 32 :=
      lt_of_le_of_lt (le_trans h1 h2) (lt_trans hlen (by norm_num))
    rw [Nat.mod_eq_of_lt hlt32]
    intro hzero
    exact hCne (List.length_eq_zero.mp hzero)
  set st1 : St := { st with
    free := upd st.free m.creator (st.free m.creator + min cfg.validityBond (st.reserved m.creator)),
    reserved := upd st.reserved m.creator (st.reserved m.creator - min cfg.validityBond (st.reserved m.creator)) } with hst1
  by_cases hor : r.outcome = ro
  · set st2 : St := { st1 with
      free := upd st1.free m.creator (st1.free m.creator + min cfg.oracleBond (st1.reserved m.creator)),
      reserved := upd st1.reserved m.creator (st1.reserved m.creator - min cfg.oracleBond (st1.reserved m.creator)) } with hst2
    obtain ⟨fr, rs, ov, hsettle⟩ := settleDisputesLoop_run cfg ro
      (((st.disputes marketId).take ((st.disputes marketId).length % 2 ^ 16)).enum)
      [] 0 st2
    obtain ⟨fr2, hdist⟩ := distributeRewards_run C (ov / (C.length % 2 ^ 32)) ov
      { st2 with free := fr, reserved := rs }
    obtain ⟨sh, hdes⟩ := destroyLosingShares_run marketId ro (List.range m.outcomes)
      { st2 with free := fr2, reserved := rs }
    refine ⟨{ markets := upd st.markets marketId (some { m with status := MarketStatus.resolved, resolvedOutcome := some ro }),
              marketCount := st.marketCount,
              marketIdsPerReportBlock := st.marketIdsPerReportBlock,
              marketIdsPerDisputeBlock := st.marketIdsPerDisputeBlock,
              disputes := st.disputes,
              marketToSwapPool := st.marketToSwapPool,
              free := fr2, reserved := rs, shares := sh }, ?_, ?_, ?_, ?_, ?_, ?_⟩
    · simp only [internalResolve, M.bind_apply, marketById_apply, h0, hrep, hstat,
        unreserveCurrency_apply, getM_apply, hlast, M.pure_apply,
        slashReservedCurrency_apply, hor, if_true, if_pos rfl]
      rw [hsettle]
      simp only [List.nil_append, M.bind_apply]
      rw [if_neg hClen, hdist]
      simp only [M.bind_apply]
      rw [hdes]
      simp only [M.bind_apply, getM_apply, h0, setM_apply, hrep]
    · simp
    · rfl
    · rfl
    · rfl
    · intro j hj
      simp [upd, hj]
  · set st2 : St := { st1 with
      reserved := upd st1.reserved m.creator (st1.reserved m.creator - min cfg.oracleBond (st1.reserved m.creator)) } with hst2
    obtain ⟨fr, rs, ov, hsettle⟩ := settleDisputesLoop_run cfg ro
      (((st.disputes marketId).take ((st.disputes marketId).length % 2 ^ 16)).enum)
      [] (min cfg.oracleBond (st1.reserved m.creator)) st2
    obtain ⟨fr2, hdist⟩ := distributeRewards_run C (ov / (C.length % 2 ^ 32)) ov
      { st2 with free := fr, reserved := rs }
    obtain ⟨sh, hdes⟩ := destroyLosingShares_run marketId ro (List.range m.outcomes)
      { st2 with free := fr2, reserved := rs }
    refine ⟨{ markets := upd st.markets marketId (some { m with status := MarketStatus.resolved, resolvedOutcome := some ro }),
              marketCount := st.marketCount,
              marketIdsPerReportBlock := st.marketIdsPerReportBlock,
              marketIdsPerDisputeBlock := st.marketIdsPerDisputeBlock,
              disputes := st.disputes,
              marketToSwapPool := st.marketToSwapPool,
              free := fr2, reserved := rs, shares := sh }, ?_, ?_, ?_, ?_, ?_, ?_⟩
    · simp only [internalResolve, M.bind_apply, marketById_apply, h0, hrep, hstat,
        unreserveCurrency_apply, getM_apply, hlast, M.pure_apply,
        slashReservedCurrency_apply, if_neg hor]
      rw [hsettle]
      simp only [List.nil_append, M.bind_apply]
      rw [if_neg hClen, hdist]
      simp only [M.bind_apply]
      rw [hdes]
      simp only [M.bind_apply, getM_apply, h0, setM_apply, hrep]
    · simp
    · rfl
    · rfl
    · rfl
    · intro j hj
      simp [upd, hj]

/-- The divisor actually used by `internal_resolve` — the `u32`-cast length of
the correct-reporter list — is non-zero whenever the dispute sequence is
non-empty (and of reachable length). -/
theorem correct_reporters_length_mod (ds : List MarketDispute) (hne : ds ≠ [])
    (hlen : ds.length < 2 ^ 16) :
    ((((ds.take (ds.length % 2 ^ 16)).enum.filter
        (fun p => p.2.outcome = (ds.getLast hne).outcome)).map
      (fun p => p.2.by_)).length % 2 ^ 32) ≠ 0 := by
  have hCne := correct_reporters_ne_nil ds hne hlen
  have h1 : (((ds.take (ds.length % 2 ^ 16)).enum.filter
        (fun p => p.2.outcome = (ds.getLast hne).outcome)).map
      (fun p => p.2.by_)).length
      ≤ (ds.take (ds.length % 2 ^ 16)).enum.length := by
    rw [List.length_map]
    exact List.length_filter_le _ _
  have h2 : (ds.take (ds.length % 2 ^ 16)).enum.length ≤ ds.length := by
    rw [List.enum_length, List.length_take]
    exact min_le_right _ _
  have hlt32 := lt_of_le_of_lt (le_trans h1 h2) (lt_trans hlen (by norm_num : (2 : Nat) ^ 16 < 2 ^ 32))
  rw [Nat.mod_eq_of_lt hlt32]
  intro hzero
  exact hCne (List.length_eq_zero.mp hzero)

/-! ### C2: last dispute wins -/

/-- C2: resolving a `Disputed` market with a non-empty dispute sequence sets
`resolved_outcome` to the outcome of the *last* dispute record, whatever the
report's outcome, whatever earlier disputes claimed and whatever the majority
is — the report `r` and the earlier entries are fully quantified here. -/
theorem internal_resolve_last_dispute_wins (cfg : Config) (marketId : Nat)
    (st : St) (m : Market) (r : Report)
    (h0 : st.markets marketId = some m)
    (hstat : m.status = MarketStatus.disputed)
    (hrep : m.report = some r)
    (hne : st.disputes marketId ≠ [])
    (hlen : (st.disputes marketId).length < 2 ^ 16) :
    ∃ st', internalResolve cfg marketId st = (Except.ok (), st') ∧
      (st'.markets marketId).map Market.resolvedOutcome
        = some (some (((st.disputes marketId).getLast hne).outcome)) ∧
      (st'.markets marketId).map Market.status = some MarketStatus.resolved := by
  obtain ⟨st', hrun, hm, -, -, -, -⟩ :=
    internalResolve_disputed_eq cfg marketId st m r h0 hstat hrep hne hlen
  refine ⟨st', hrun, ?_, ?_⟩ <;> rw [hm] <;> rfl


/-- A disputed market: reported outcome 0, disputes claiming 1, 0, 1. -/
def rC2 : Report := { at_ := 10, by_ := AccountId.user 2, outcome := 0 }

def mC2 : Market :=
  { creator := AccountId.user 1, creation := MarketCreation.permissionless,
    creatorFee := 0, oracle := AccountId.user 2, end_ := MarketEnd.block 8,
    metadata := [], marketType := MarketType.categorical,
    status := MarketStatus.disputed, report := some rC2,
    categories := some 2, resolvedOutcome := none }

def dsC2 : List MarketDispute :=
  [ { at_ := 11, by_ := AccountId.user 4, outcome := 1 },
    { at_ := 12, by_ := AccountId.user 5, outcome := 0 },
    { at_ := 13, by_ := AccountId.user 6, outcome := 1 } ]

def stC2 : St :=
  { markets := fun id => if id = 0 then some mC2 else none,
    marketCount := 1,
    marketIdsPerReportBlock := fun _ => [],
    marketIdsPerDisputeBlock := fun b => if b = 13 then [0] else [],
    disputes := fun id => if id = 0 then dsC2 else [],
    marketToSwapPool := fun _ => none,
    free := fun _ => 100,
    reserved := fun _ => 100,
    shares := fun _ _ => 0 }

theorem internal_resolve_last_dispute_wins_witness :
    ∃ st', internalResolve cfg0 0 stC2 = (Except.ok (), st') ∧
      (st'.markets 0).map Market.resolvedOutcome = some (some 1) ∧
      (st'.markets 0).map Market.status = some MarketStatus.resolved := by
  obtain ⟨st', h1, h2, h3⟩ :=
    internal_resolve_last_dispute_wins cfg0 0 stC2 mC2 rC2 rfl rfl rfl
      (by decide) (by decide)
  refine ⟨st', h1, ?_, h3⟩
  rw [h2]
  rfl

/-! ### C3: the settlement divisor is never zero -/

/-- C3: when the resolved outcome is the last dispute's outcome (which is how
`internal_resolve` computes it for `Disputed` markets), the per-dispute
settlement loop — invoked exactly as in the source, over
`(disputes.take num_disputes).enum` with an empty accumulator — collects a
non-empty correct-reporter list, so the `u32`-cast divisor of the reward
division is non-zero. -/
theorem disputed_settlement_never_divides_by_zero (cfg : Config) (ro : Nat)
    (ds : List MarketDispute) (st : St) (imb0 : Nat)
    (hne : ds ≠ []) (hlen : ds.length < 2 ^ 16)
    (hro : ro = (ds.getLast hne).outcome) :
    ∃ correct ov st',
      settleDisputesLoop cfg ro ((ds.take (ds.length % 2 ^ 16)).enum) [] imb0 st
        = (Except.ok (correct, ov), st') ∧
      correct ≠ [] ∧ correct.length % 2 ^ 32 ≠ 0 := by
  obtain ⟨fr, rs, ov, hrun⟩ := settleDisputesLoop_run cfg ro
    ((ds.take (ds.length % 2 ^ 16)).enum) [] imb0 st
  refine ⟨((ds.take (ds.length % 2 ^ 16)).enum.filter
      (fun p => p.2.outcome = ro)).map (fun p => p.2.by_), ov,
    { st with free := fr, reserved := rs }, ?_, ?_, ?_⟩
  · simpa using hrun
  · subst hro
    exact correct_reporters_ne_nil ds hne hlen
  · subst hro
    exact correct_reporters_length_mod ds hne hlen

theorem disputed_settlement_never_divides_by_zero_witness :
    ∃ correct ov st',
      settleDisputesLoop cfg0 1 ((dsC2.take (dsC2.length % 2 ^ 16)).enum) [] 3 stC2
        = (Except.ok (correct, ov), st') ∧
      correct ≠ [] ∧ correct.length % 2 ^ 32 ≠ 0 :=
  disputed_settlement_never_divides_by_zero cfg0 1 dsC2 stC2 3 (by decide)
    (by decide) (by decide)

/-! ### C6: market creation -/

/-- C6: creating a categorical market under valid arguments: a permissionless
creation escrows `ValidityBond + OracleBond` and inserts the market `Active`;
an advised creation escrows `AdvisoryBond + OracleBond` and inserts it
`Proposed`; the id used is the current counter and the counter advances by
one.  If the creator's free balance cannot cover the bond, the call aborts
with *no* state change at all: no record inserted, counter untouched. -/
theorem create_categorical_market_spec (cfg : Config) (chain : Chain)
    (sender oracle : AccountId) (end_ : MarketEnd) (metadata : List Nat)
    (creation : MarketCreation) (categories : Nat) (st : St)
    (bond : Nat) (status₀ : MarketStatus)
    (hcat : categories ≤ cfg.maxCategories)
    (hend : isMarketActive chain end_ = true)
    (hcount : st.marketCount + 1 < 2 ^ 128)
    (hbond : bond = (match creation with
      | MarketCreation.permissionless => cfg.validityBond + cfg.oracleBond
      | MarketCreation.advised => cfg.advisoryBond + cfg.oracleBond))
    (hstatus : status₀ = (match creation with
      | MarketCreation.permissionless => MarketStatus.active
      | MarketCreation.advised => MarketStatus.proposed)) :
    (bond ≤ st.free sender →
      ∃ st', createCategoricalMarket cfg chain sender oracle end_ metadata
          creation categories st = (Except.ok (), st') ∧
        st'.markets st.marketCount = some
          { creator := sender, creation := creation, creatorFee := 0,
            oracle := oracle, end_ := end_, metadata := metadata,
            marketType := MarketType.categorical, status := status₀,
            report := none, categories := some categories,
            resolvedOutcome := none } ∧
        st'.marketCount = st.marketCount + 1 ∧
        st'.reserved sender = st.reserved sender + bond ∧
        st'.free sender = st.free sender - bond) ∧
    (st.free sender < bond →
      createCategoricalMarket cfg chain sender oracle end_ metadata
        creation categories st = (Except.error Error.insufficientFunds, st)) := by
  constructor
  · intro hfree
    rcases creation with _ | _
    · have hb : bond = cfg.validityBond + cfg.oracleBond := hbond
      have hs : status₀ = MarketStatus.active := hstatus
      subst hb
      subst hs
      refine ⟨{ st with
        markets := upd st.markets st.marketCount (some { creator := sender, creation := MarketCreation.permissionless, creatorFee := 0, oracle := oracle, end_ := end_, metadata := metadata, marketType := MarketType.categorical, status := MarketStatus.active, report := none, categories := some categories, resolvedOutcome := none }),
        marketCount := st.marketCount + 1,
        free := upd st.free sender (st.free sender - (cfg.validityBond + cfg.oracleBond)),
        reserved := upd st.reserved sender (st.reserved sender + (cfg.validityBond + cfg.oracleBond)) }, ?_, ?_, ?_, ?_, ?_⟩
      · rcases end_ with b | t <;> simp only [isMarketActive] at hend <;>
          (simp only [createCategoricalMarket, M.bind_apply, ensureM_apply, hcat,
             decide_True, if_true, hend, reserveCurrency_apply,
             getNextMarketId_apply, getM_apply, setM_apply, M.pure_apply,
             decide_eq_true_eq]
           simp only [if_neg (Nat.not_lt.mpr hfree), if_pos hcount])
      · simp
      · rfl
      · simp
      · simp
    · have hb : bond = cfg.advisoryBond + cfg.oracleBond := hbond
      have hs : status₀ = MarketStatus.proposed := hstatus
      subst hb
      subst hs
      refine ⟨{ st with
        markets := upd st.markets st.marketCount (some { creator := sender, creation := MarketCreation.advised, creatorFee := 0, oracle := oracle, end_ := end_, metadata := metadata, marketType := MarketType.categorical, status := MarketStatus.proposed, report := none, categories := some categories, resolvedOutcome := none }),
        marketCount := st.marketCount + 1,
        free := upd st.free sender (st.free sender - (cfg.advisoryBond + cfg.oracleBond)),
        reserved := upd st.reserved sender (st.reserved sender + (cfg.advisoryBond + cfg.oracleBond)) }, ?_, ?_, ?_, ?_, ?_⟩
      · rcases end_ with b | t <;> simp only [isMarketActive] at hend <;>
          (simp only [createCategoricalMarket, M.bind_apply, ensureM_apply, hcat,
             decide_True, if_true, hend, reserveCurrency_apply,
             getNextMarketId_apply, getM_apply, setM_apply, M.pure_apply,
             decide_eq_true_eq]
           simp only [if_neg (Nat.not_lt.mpr hfree), if_pos hcount])
      · simp
      · rfl
      · simp
      · simp
  · intro hpoor
    rcases creation with _ | _
    · have hp : st.free sender < cfg.validityBond + cfg.oracleBond := by
        rw [hbond] at hpoor
        exact hpoor
      rcases end_ with b | t <;> simp only [isMarketActive] at hend <;>
        (simp only [createCategoricalMarket, M.bind_apply, ensureM_apply,
           hcat, decide_True, if_true, hend, reserveCurrency_apply,
           decide_eq_true_eq]
         simp only [if_pos hp])
    · have hp : st.free sender < cfg.advisoryBond + cfg.oracleBond := by
        rw [hbond] at hpoor
        exact hpoor
      rcases end_ with b | t <;> simp only [isMarketActive] at hend <;>
        (simp only [createCategoricalMarket, M.bind_apply, ensureM_apply,
           hcat, decide_True, if_true, hend, reserveCurrency_apply,
           decide_eq_true_eq]
         simp only [if_pos hp])

theorem create_categorical_market_spec_witness :
    ((cfg0.advisoryBond + cfg0.oracleBond) ≤ stC4.free (AccountId.user 9) →
      ∃ st', createCategoricalMarket cfg0 { block := 1, time := 1 }
          (AccountId.user 9) (AccountId.user 2) (MarketEnd.block 50) []
          MarketCreation.advised 2 stC4 = (Except.ok (), st') ∧
        st'.markets stC4.marketCount = some
          { creator := AccountId.user 9, creation := MarketCreation.advised,
            creatorFee := 0, oracle := AccountId.user 2,
            end_ := MarketEnd.block 50, metadata := [],
            marketType := MarketType.categorical, status := MarketStatus.proposed,
            report := none, categories := some 2, resolvedOutcome := none } ∧
        st'.marketCount = stC4.marketCount + 1 ∧
        st'.reserved (AccountId.user 9)
          = stC4.reserved (AccountId.user 9) + (cfg0.advisoryBond + cfg0.oracleBond) ∧
        st'.free (AccountId.user 9)
          = stC4.free (AccountId.user 9) - (cfg0.advisoryBond + cfg0.oracleBond)) ∧
    (stC4.free (AccountId.user 9) < cfg0.advisoryBond + cfg0.oracleBond →
      createCategoricalMarket cfg0 { block := 1, time := 1 } (AccountId.user 9)
        (AccountId.user 2) (MarketEnd.block 50) [] MarketCreation.advised 2 stC4
        = (Except.error Error.insufficientFunds, stC4)) :=
  create_categorical_market_spec cfg0 { block := 1, time := 1 }
    (AccountId.user 9) (AccountId.user 2) (MarketEnd.block 50) []
    MarketCreation.advised 2 stC4 (cfg0.advisoryBond + cfg0.oracleBond)
    MarketStatus.proposed (by decide) rfl (by decide) rfl rfl

/-! ### Frame lemma for `internal_resolve` -/

/-- Whatever happens (success, dispatch error or panic), `internal_resolve`
never touches the dispute ledger, the two scheduling indices, the id counter,
the pool table, or any *other* market's record. -/
theorem internalResolve_frame (cfg : Config) (marketId : Nat) (st : St) :
    (internalResolve cfg marketId st).2.disputes = st.disputes ∧
    (internalResolve cfg marketId st).2.marketIdsPerReportBlock
      = st.marketIdsPerReportBlock ∧
    (internalResolve cfg marketId st).2.marketIdsPerDisputeBlock
      = st.marketIdsPerDisputeBlock ∧
    (internalResolve cfg marketId st).2.marketCount = st.marketCount ∧
    (internalResolve cfg marketId st).2.marketToSwapPool = st.marketToSwapPool ∧
    (∀ j, j ≠ marketId → (internalResolve cfg marketId st).2.markets j
      = st.markets j) := by
  rcases h0 : st.markets marketId with _ | m
  · simp [internalResolve, M.bind_apply, marketById_apply, h0]
  · rcases hrep : m.report with _ | r
    · simp [internalResolve, M.bind_apply, marketById_apply, h0, hrep]
    · rcases hstat : m.status
      case proposed =>
        obtain ⟨sh, hdes⟩ := destroyLosingShares_run marketId 69
          (List.range m.outcomes)
          { st with
            free := upd st.free m.creator (st.free m.creator + min cfg.validityBond (st.reserved m.creator)),
            reserved := upd st.reserved m.creator (st.reserved m.creator - min cfg.validityBond (st.reserved m.creator)) }
        simp only [internalResolve, M.bind_apply, marketById_apply, h0, hrep,
          hstat, unreserveCurrency_apply, getM_apply, M.pure_apply]
        rw [hdes]
        simp only [M.bind_apply, getM_apply, setM_apply, h0]
        refine ⟨by trivial, by trivial, by trivial, by trivial, by trivial, ?_⟩
        intro j hj
        simp [upd, hj]
      case active =>
        obtain ⟨sh, hdes⟩ := destroyLosingShares_run marketId 69
          (List.range m.outcomes)
          { st with
            free := upd st.free m.creator (st.free m.creator + min cfg.validityBond (st.reserved m.creator)),
            reserved := upd st.reserved m.creator (st.reserved m.creator - min cfg.validityBond (st.reserved m.creator)) }
        simp only [internalResolve, M.bind_apply, marketById_apply, h0, hrep,
          hstat, unreserveCurrency_apply, getM_apply, M.pure_apply]
        rw [hdes]
        simp only [M.bind_apply, getM_apply, setM_apply, h0]
        refine ⟨by trivial, by trivial, by trivial, by trivial, by trivial, ?_⟩
        intro j hj
        simp [upd, hj]
      case resolved =>
        obtain ⟨sh, hdes⟩ := destroyLosingShares_run marketId 69
          (List.range m.outcomes)
          { st with
            free := upd st.free m.creator (st.free m.creator + min cfg.validityBond (st.reserved m.creator)),
            reserved := upd st.reserved m.creator (st.reserved m.creator - min cfg.validityBond (st.reserved m.creator)) }
        simp only [internalResolve, M.bind_apply, marketById_apply, h0, hrep,
          hstat, unreserveCurrency_apply, getM_apply, M.pure_apply]
        rw [hdes]
        simp only [M.bind_apply, getM_apply, setM_apply, h0]
        refine ⟨by trivial, by trivial, by trivial, by trivial, by trivial, ?_⟩
        intro j hj
        simp [upd, hj]
      case reported =>
        by_cases horacle : r.by_ = m.oracle
        · obtain ⟨sh, hdes⟩ := destroyLosingShares_run marketId r.outcome
            (List.range m.outcomes)
            { st with
              free := upd (upd st.free m.creator (st.free m.creator + min cfg.validityBond (st.reserved m.creator))) m.creator ((upd st.free m.creator (st.free m.creator + min cfg.validityBond (st.reserved m.creator))) m.creator + min cfg.oracleBond ((upd st.reserved m.creator (st.reserved m.creator - min cfg.validityBond (st.reserved m.creator))) m.creator)),
              reserved := upd (upd st.reserved m.creator (st.reserved m.creator - min cfg.validityBond (st.reserved m.creator))) m.creator ((upd st.reserved m.creator (st.reserved m.creator - min cfg.validityBond (st.reserved m.creator))) m.creator - min cfg.oracleBond ((upd st.reserved m.creator (st.reserved m.creator - min cfg.validityBond (st.reserved m.creator))) m.creator)) }
          simp only [internalResolve, M.bind_apply, marketById_apply, h0, hrep,
            hstat, unreserveCurrency_apply, getM_apply, M.pure_apply,
            horacle, eq_self_iff_true, if_true]
          rw [hdes]
          simp only [M.bind_apply, getM_apply, setM_apply, h0]
          refine ⟨by trivial, by trivial, by trivial, by trivial, by trivial, ?_⟩
          intro j hj
          simp [upd, hj]
        · obtain ⟨sh, hdes⟩ := destroyLosingShares_run marketId r.outcome
            (List.range m.outcomes)
            { st with
              free := upd (upd st.free m.creator (st.free m.creator + min cfg.validityBond (st.reserved m.creator))) r.by_ ((upd st.free m.creator (st.free m.creator + min cfg.validityBond (st.reserved m.creator))) r.by_ + min cfg.oracleBond ((upd st.reserved m.creator (st.reserved m.creator - min cfg.validityBond (st.reserved m.creator))) m.creator)),
              reserved := upd (upd st.reserved m.creator (st.reserved m.creator - min cfg.validityBond (st.reserved m.creator))) m.creator ((upd st.reserved m.creator (st.reserved m.creator - min cfg.validityBond (st.reserved m.creator))) m.creator - min cfg.oracleBond ((upd st.reserved m.creator (st.reserved m.creator - min cfg.validityBond (st.reserved m.creator))) m.creator)) }
          simp only [internalResolve, M.bind_apply, marketById_apply, h0, hrep,
            hstat, unreserveCurrency_apply, getM_apply, M.pure_apply,
            slashReservedCurrency_apply, resolveCreating_apply, if_neg horacle]
          rw [hdes]
          simp only [M.bind_apply, getM_apply, setM_apply, h0]
          refine ⟨by trivial, by trivial, by trivial, by trivial, by trivial, ?_⟩
          intro j hj
          simp [upd, hj]
      case disputed =>
        rcases hget : (st.disputes marketId).get?
            ((st.disputes marketId).length % 2 ^ 16 - 1) with _ | lastD
        · simp only [internalResolve, M.bind_apply, marketById_apply, h0, hrep,
            hstat, unreserveCurrency_apply, getM_apply, M.pure_apply, hget,
            throwM_apply]
          exact ⟨by trivial, by trivial, by trivial, by trivial, by trivial, fun j hj => by trivial⟩
        · by_cases hor : r.outcome = lastD.outcome
          · obtain ⟨fr, rs, ov, hsettle⟩ := settleDisputesLoop_run cfg
              lastD.outcome
              (((st.disputes marketId).take ((st.disputes marketId).length % 2 ^ 16)).enum)
              [] 0
              { st with
                free := upd (upd st.free m.creator (st.free m.creator + min cfg.validityBond (st.reserved m.creator))) m.creator ((upd st.free m.creator (st.free m.creator + min cfg.validityBond (st.reserved m.creator))) m.creator + min cfg.oracleBond ((upd st.reserved m.creator (st.reserved m.creator - min cfg.validityBond (st.reserved m.creator))) m.creator)),
                reserved := upd (upd st.reserved m.creator (st.reserved m.creator - min cfg.validityBond (st.reserved m.creator))) m.creator ((upd st.reserved m.creator (st.reserved m.creator - min cfg.validityBond (st.reserved m.creator))) m.creator - min cfg.oracleBond ((upd st.reserved m.creator (st.reserved m.creator - min cfg.validityBond (st.reserved m.creator))) m.creator)) }
            simp only [internalResolve, M.bind_apply, marketById_apply, h0, hrep,
              hstat, unreserveCurrency_apply, getM_apply, M.pure_apply, hget,
              hor, eq_self_iff_true, if_true]
            rw [hsettle]
            simp only [M.bind_apply, List.nil_append]
            by_cases hdiv : ((((st.disputes marketId).take ((st.disputes marketId).length % 2 ^ 16)).enum.filter (fun p => p.2.outcome = lastD.outcome)).map (fun p => p.2.by_)).length % 2 ^ 32 = 0
            · rw [if_pos hdiv]
              exact ⟨by trivial, by trivial, by trivial, by trivial, by trivial, fun j hj => by trivial⟩
            · rw [if_neg hdiv]
              obtain ⟨fr2, hdist⟩ := distributeRewards_run
                ((((st.disputes marketId).take ((st.disputes marketId).length % 2 ^ 16)).enum.filter (fun p => p.2.outcome = lastD.outcome)).map (fun p => p.2.by_))
                (ov / (((((st.disputes marketId).take ((st.disputes marketId).length % 2 ^ 16)).enum.filter (fun p => p.2.outcome = lastD.outcome)).map (fun p => p.2.by_)).length % 2 ^ 32))
                ov _
              rw [hdist]
              simp only [M.bind_apply]
              obtain ⟨sh, hdes⟩ := destroyLosingShares_run marketId lastD.outcome
                (List.range m.outcomes) _
              rw [hdes]
              simp only [M.bind_apply, getM_apply, setM_apply, h0]
              refine ⟨by trivial, by trivial, by trivial, by trivial, by trivial, ?_⟩
              intro j hj
              simp [upd, hj]
          · obtain ⟨fr, rs, ov, hsettle⟩ := settleDisputesLoop_run cfg
              lastD.outcome
              (((st.disputes marketId).take ((st.disputes marketId).length % 2 ^ 16)).enum)
              []
              (min cfg.oracleBond ((upd st.reserved m.creator (st.reserved m.creator - min cfg.validityBond (st.reserved m.creator))) m.creator))
              { st with
                free := upd st.free m.creator (st.free m.creator + min cfg.validityBond (st.reserved m.creator)),
                reserved := upd (upd st.reserved m.creator (st.reserved m.creator - min cfg.validityBond (st.reserved m.creator))) m.creator ((upd st.reserved m.creator (st.reserved m.creator - min cfg.validityBond (st.reserved m.creator))) m.creator - min cfg.oracleBond ((upd st.reserved m.creator (st.reserved m.creator - min cfg.validityBond (st.reserved m.creator))) m.creator)) }
            simp only [internalResolve, M.bind_apply, marketById_apply, h0, hrep,
              hstat, unreserveCurrency_apply, getM_apply, M.pure_apply, hget,
              slashReservedCurrency_apply, if_neg hor]
            rw [hsettle]
            simp only [M.bind_apply, List.nil_append]
            by_cases hdiv : ((((st.disputes marketId).take ((st.disputes marketId).length % 2 ^ 16)).enum.filter (fun p => p.2.outcome = lastD.outcome)).map (fun p => p.2.by_)).length % 2 ^ 32 = 0
            · rw [if_pos hdiv]
              exact ⟨by trivial, by trivial, by trivial, by trivial, by trivial, fun j hj => by trivial⟩
            · rw [if_neg hdiv]
              obtain ⟨fr2, hdist⟩ := distributeRewards_run
                ((((st.disputes marketId).take ((st.disputes marketId).length % 2 ^ 16)).enum.filter (fun p => p.2.outcome = lastD.outcome)).map (fun p => p.2.by_))
                (ov / (((((st.disputes marketId).take ((st.disputes marketId).length % 2 ^ 16)).enum.filter (fun p => p.2.outcome = lastD.outcome)).map (fun p => p.2.by_)).length % 2 ^ 32))
                ov _
              rw [hdist]
              simp only [M.bind_apply]
              obtain ⟨sh, hdes⟩ := destroyLosingShares_run marketId lastD.outcome
                (List.range m.outcomes) _
              rw [hdes]
              simp only [M.bind_apply, getM_apply, setM_apply, h0]
              refine ⟨by trivial, by trivial, by trivial, by trivial, by trivial, ?_⟩
              intro j hj
              simp [upd, hj]

/-- When `internal_resolve` returns `Ok`, the target market ends with status
`Resolved`. -/
theorem internalResolve_ok_resolved (cfg : Config) (marketId : Nat) (st : St) :
    (internalResolve cfg marketId st).1 = Except.ok () →
    ∃ m', (internalResolve cfg marketId st).2.markets marketId = some m' ∧
      m'.status = MarketStatus.resolved := by
  rcases h0 : st.markets marketId with _ | m
  · simp [internalResolve, M.bind_apply, marketById_apply, h0]
  · rcases hrep : m.report with _ | r
    · simp [internalResolve, M.bind_apply, marketById_apply, h0, hrep]
    · rcases hstat : m.status
      case proposed =>
        obtain ⟨sh, hdes⟩ := destroyLosingShares_run marketId 69
          (List.range m.outcomes)
          { st with
            free := upd st.free m.creator (st.free m.creator + min cfg.validityBond (st.reserved m.creator)),
            reserved := upd st.reserved m.creator (st.reserved m.creator - min cfg.validityBond (st.reserved m.creator)) }
        simp only [internalResolve, M.bind_apply, marketById_apply, h0, hrep,
          hstat, unreserveCurrency_apply, getM_apply, M.pure_apply]
        rw [hdes]
        simp only [M.bind_apply, getM_apply, setM_apply, h0]
        intro _
        exact ⟨{ m with status := MarketStatus.resolved, resolvedOutcome := some 69 },
          by simp, rfl⟩
      case active =>
        obtain ⟨sh, hdes⟩ := destroyLosingShares_run marketId 69
          (List.range m.outcomes)
          { st with
            free := upd st.free m.creator (st.free m.creator + min cfg.validityBond (st.reserved m.creator)),
            reserved := upd st.reserved m.creator (st.reserved m.creator - min cfg.validityBond (st.reserved m.creator)) }
        simp only [internalResolve, M.bind_apply, marketById_apply, h0, hrep,
          hstat, unreserveCurrency_apply, getM_apply, M.pure_apply]
        rw [hdes]
        simp only [M.bind_apply, getM_apply, setM_apply, h0]
        intro _
        exact ⟨{ m with status := MarketStatus.resolved, resolvedOutcome := some 69 },
          by simp, rfl⟩
      case resolved =>
        obtain ⟨sh, hdes⟩ := destroyLosingShares_run marketId 69
          (List.range m.outcomes)
          { st with
            free := upd st.free m.creator (st.free m.creator + min cfg.validityBond (st.reserved m.creator)),
            reserved := upd st.reserved m.creator (st.reserved m.creator - min cfg.validityBond (st.reserved m.creator)) }
        simp only [internalResolve, M.bind_apply, marketById_apply, h0, hrep,
          hstat, unreserveCurrency_apply, getM_apply, M.pure_apply]
        rw [hdes]
        simp only [M.bind_apply, getM_apply, setM_apply, h0]
        intro _
        exact ⟨{ m with status := MarketStatus.resolved, resolvedOutcome := some 69 },
          by simp, rfl⟩
      case reported =>
        by_cases horacle : r.by_ = m.oracle
        · obtain ⟨sh, hdes⟩ := destroyLosingShares_run marketId r.outcome
            (List.range m.outcomes)
            { st with
              free := upd (upd st.free m.creator (st.free m.creator + min cfg.validityBond (st.reserved m.creator))) m.creator ((upd st.free m.creator (st.free m.creator + min cfg.validityBond (st.reserved m.creator))) m.creator + min cfg.oracleBond ((upd st.reserved m.creator (st.reserved m.creator - min cfg.validityBond (st.reserved m.creator))) m.creator)),
              reserved := upd (upd st.reserved m.creator (st.reserved m.creator - min cfg.validityBond (st.reserved m.creator))) m.creator ((upd st.reserved m.creator (st.reserved m.creator - min cfg.validityBond (st.reserved m.creator))) m.creator - min cfg.oracleBond ((upd st.reserved m.creator (st.reserved m.creator - min cfg.validityBond (st.reserved m.creator))) m.creator)) }
          simp only [internalResolve, M.bind_apply, marketById_apply, h0, hrep,
            hstat, unreserveCurrency_apply, getM_apply, M.pure_apply,
            horacle, eq_self_iff_true, if_true]
          rw [hdes]
          simp only [M.bind_apply, getM_apply, setM_apply, h0]
          intro _
          exact ⟨{ m with status := MarketStatus.resolved, resolvedOutcome := some r.outcome },
            by simp, rfl⟩
        · obtain ⟨sh, hdes⟩ := destroyLosingShares_run marketId r.outcome
            (List.range m.outcomes)
            { st with
              free := upd (upd st.free m.creator (st.free m.creator + min cfg.validityBond (st.reserved m.creator))) r.by_ ((upd st.free m.creator (st.free m.creator + min cfg.validityBond (st.reserved m.creator))) r.by_ + min cfg.oracleBond ((upd st.reserved m.creator (st.reserved m.creator - min cfg.validityBond (st.reserved m.creator))) m.creator)),
              reserved := upd (upd st.reserved m.creator (st.reserved m.creator - min cfg.validityBond (st.reserved m.creator))) m.creator ((upd st.reserved m.creator (st.reserved m.creator - min cfg.validityBond (st.reserved m.creator))) m.creator - min cfg.oracleBond ((upd st.reserved m.creator (st.reserved m.creator - min cfg.validityBond (st.reserved m.creator))) m.creator)) }
          simp only [internalResolve, M.bind_apply, marketById_apply, h0, hrep,
            hstat, unreserveCurrency_apply, getM_apply, M.pure_apply,
            slashReservedCurrency_apply, resolveCreating_apply, if_neg horacle]
          rw [hdes]
          simp only [M.bind_apply, getM_apply, setM_apply, h0]
          intro _
          exact ⟨{ m with status := MarketStatus.resolved, resolvedOutcome := some r.outcome },
            by simp, rfl⟩
      case disputed =>
        rcases hget : (st.disputes marketId).get?
            ((st.disputes marketId).length % 2 ^ 16 - 1) with _ | lastD
        · simp only [internalResolve, M.bind_apply, marketById_apply, h0, hrep,
            hstat, unreserveCurrency_apply, getM_apply, M.pure_apply, hget,
            throwM_apply]
          simp
        · by_cases hor : r.outcome = lastD.outcome
          · obtain ⟨fr, rs, ov, hsettle⟩ := settleDisputesLoop_run cfg
              lastD.outcome
              (((st.disputes marketId).take ((st.disputes marketId).length % 2 ^ 16)).enum)
              [] 0
              { st with
                free := upd (upd st.free m.creator (st.free m.creator + min cfg.validityBond (st.reserved m.creator))) m.creator ((upd st.free m.creator (st.free m.creator + min cfg.validityBond (st.reserved m.creator))) m.creator + min cfg.oracleBond ((upd st.reserved m.creator (st.reserved m.creator - min cfg.validityBond (st.reserved m.creator))) m.creator)),
                reserved := upd (upd st.reserved m.creator (st.reserved m.creator - min cfg.validityBond (st.reserved m.creator))) m.creator ((upd st.reserved m.creator (st.reserved m.creator - min cfg.validityBond (st.reserved m.creator))) m.creator - min cfg.oracleBond ((upd st.reserved m.creator (st.reserved m.creator - min cfg.validityBond (st.reserved m.creator))) m.creator)) }
            simp only [internalResolve, M.bind_apply, marketById_apply, h0, hrep,
              hstat, unreserveCurrency_apply, getM_apply, M.pure_apply, hget,
              hor, eq_self_iff_true, if_true]
            rw [hsettle]
            simp only [M.bind_apply, List.nil_append]
            by_cases hdiv : ((((st.disputes marketId).take ((st.disputes marketId).length % 2 ^ 16)).enum.filter (fun p => p.2.outcome = lastD.outcome)).map (fun p => p.2.by_)).length % 2 ^ 32 = 0
            · rw [if_pos hdiv]
              simp
            · rw [if_neg hdiv]
              obtain ⟨fr2, hdist⟩ := distributeRewards_run
                ((((st.disputes marketId).take ((st.disputes marketId).length % 2 ^ 16)).enum.filter (fun p => p.2.outcome = lastD.outcome)).map (fun p => p.2.by_))
                (ov / (((((st.disputes marketId).take ((st.disputes marketId).length % 2 ^ 16)).enum.filter (fun p => p.2.outcome = lastD.outcome)).map (fun p => p.2.by_)).length % 2 ^ 32))
                ov _
              rw [hdist]
              simp only [M.bind_apply]
              obtain ⟨sh, hdes⟩ := destroyLosingShares_run marketId lastD.outcome
                (List.range m.outcomes) _
              rw [hdes]
              simp only [M.bind_apply, getM_apply, setM_apply, h0]
              intro _
              exact ⟨{ m with status := MarketStatus.resolved, resolvedOutcome := some lastD.outcome },
                by simp, rfl⟩
          · obtain ⟨fr, rs, ov, hsettle⟩ := settleDisputesLoop_run cfg
              lastD.outcome
              (((st.disputes marketId).take ((st.disputes marketId).length % 2 ^ 16)).enum)
              []
              (min cfg.oracleBond ((upd st.reserved m.creator (st.reserved m.creator - min cfg.validityBond (st.reserved m.creator))) m.creator))
              { st with
                free := upd st.free m.creator (st.free m.creator + min cfg.validityBond (st.reserved m.creator)),
                reserved := upd (upd st.reserved m.creator (st.reserved m.creator - min cfg.validityBond (st.reserved m.creator))) m.creator ((upd st.reserved m.creator (st.reserved m.creator - min cfg.validityBond (st.reserved m.creator))) m.creator - min cfg.oracleBond ((upd st.reserved m.creator (st.reserved m.creator - min cfg.validityBond (st.reserved m.creator))) m.creator)) }
            simp only [internalResolve, M.bind_apply, marketById_apply, h0, hrep,
              hstat, unreserveCurrency_apply, getM_apply, M.pure_apply, hget,
              slashReservedCurrency_apply, if_neg hor]
            rw [hsettle]
            simp only [M.bind_apply, List.nil_append]
            by_cases hdiv : ((((st.disputes marketId).take ((st.disputes marketId).length % 2 ^ 16)).enum.filter (fun p => p.2.outcome = lastD.outcome)).map (fun p => p.2.by_)).length % 2 ^ 32 = 0
            · rw [if_pos hdiv]
              simp
            · rw [if_neg hdiv]
              obtain ⟨fr2, hdist⟩ := distributeRewards_run
                ((((st.disputes marketId).take ((st.disputes marketId).length % 2 ^ 16)).enum.filter (fun p => p.2.outcome = lastD.outcome)).map (fun p => p.2.by_))
                (ov / (((((st.disputes marketId).take ((st.disputes marketId).length % 2 ^ 16)).enum.filter (fun p => p.2.outcome = lastD.outcome)).map (fun p => p.2.by_)).length % 2 ^ 32))
                ov _
              rw [hdist]
              simp only [M.bind_apply]
              obtain ⟨sh, hdes⟩ := destroyLosingShares_run marketId lastD.outcome
                (List.range m.outcomes) _
              rw [hdes]
              simp only [M.bind_apply, getM_apply, setM_apply, h0]
              intro _
              exact ⟨{ m with status := MarketStatus.resolved, resolvedOutcome := some lastD.outcome },
                by simp, rfl⟩

/-! ### Scheduler phase lemmas -/

/-- The report-bucket pass touches no scheduling index, no dispute entry, and
no market outside the processed list. -/
theorem resolveReportedList_frame (cfg : Config) (l : List Nat) (st : St) :
    (resolveReportedList cfg l st).2.marketIdsPerReportBlock
      = st.marketIdsPerReportBlock ∧
    (resolveReportedList cfg l st).2.marketIdsPerDisputeBlock
      = st.marketIdsPerDisputeBlock ∧
    (resolveReportedList cfg l st).2.disputes = st.disputes ∧
    (∀ j, j ∉ l → (resolveReportedList cfg l st).2.markets j = st.markets j) := by
  induction l generalizing st with
  | nil => exact ⟨rfl, rfl, rfl, fun j _ => rfl⟩
  | cons hd rest ih =>
      simp only [resolveReportedList, M.bind_apply, getM_apply]
      rcases hm : st.markets hd with _ | market
      · simp only [throwM_apply]
        exact ⟨by trivial, by trivial, by trivial, fun j _ => by trivial⟩
      · by_cases hs : market.status = MarketStatus.reported
        · simp only [hs, ne_eq, eq_self_iff_true, not_true, if_false,
            expectOk_apply]
          rcases hres : internalResolve cfg hd st with ⟨r1, st1⟩
          have hframe := internalResolve_frame cfg hd st
          rw [hres] at hframe
          rcases r1 with e | u
          · simp only [hres]
            exact ⟨hframe.2.1, hframe.2.2.1, hframe.1, fun j hj =>
              hframe.2.2.2.2.2 j (fun hEq => hj (hEq ▸ List.mem_cons_self hd rest))⟩
          · simp only [hres]
            obtain ⟨f1, f2, f3, f4⟩ := ih st1
            refine ⟨f1.trans hframe.2.1, f2.trans hframe.2.2.1,
              f3.trans hframe.1, ?_⟩
            intro j hj
            exact (f4 j (fun hmem => hj (List.mem_cons_of_mem hd hmem))).trans
              (hframe.2.2.2.2.2 j (fun hEq => hj (hEq ▸ List.mem_cons_self hd rest)))
        · simp only [ne_eq, hs, not_false_eq_true, if_true, M.pure_apply]
          obtain ⟨f1, f2, f3, f4⟩ := ih st
          exact ⟨f1, f2, f3, fun j hj => f4 j (fun hmem => hj (List.mem_cons_of_mem hd hmem))⟩

/-- A listed market whose status is *not* `Reported` is skipped by the
report-bucket pass: its record survives the pass untouched. -/
theorem resolveReportedList_keeps_nonreported (cfg : Config) (l : List Nat)
    (st : St) (id : Nat) (m : Market)
    (hm : st.markets id = some m) (hnr : m.status ≠ MarketStatus.reported) :
    (resolveReportedList cfg l st).2.markets id = some m := by
  induction l generalizing st with
  | nil => exact hm
  | cons hd rest ih =>
      by_cases hhd : hd = id
      · subst hhd
        simp only [resolveReportedList, M.bind_apply, getM_apply, hm, ne_eq,
          hnr, not_false_eq_true, if_true, M.pure_apply]
        exact ih st hm
      · simp only [resolveReportedList, M.bind_apply, getM_apply]
        rcases hmhd : st.markets hd with _ | market
        · simp only [throwM_apply]
          exact hm
        · by_cases hs : market.status = MarketStatus.reported
          · simp only [hs, ne_eq, eq_self_iff_true, not_true, if_false,
              expectOk_apply]
            rcases hres : internalResolve cfg hd st with ⟨r1, st1⟩
            have hframe := internalResolve_frame cfg hd st
            rw [hres] at hframe
            have hm1 : st1.markets id = some m :=
              (hframe.2.2.2.2.2 id (fun hEq => hhd hEq.symm)).trans hm
            rcases r1 with e | u
            · simp only [hres]
              exact hm1
            · simp only [hres]
              exact ih st1 hm1
          · simp only [ne_eq, hs, not_false_eq_true, if_true, M.pure_apply]
            exact ih st hm

/-- A listed market that is still `Reported` when the report-bucket pass
succeeds ends the pass with status `Resolved`. -/
theorem resolveReportedList_resolves (cfg : Config) (l : List Nat) (st : St)
    (id : Nat) (m : Market)
    (hmem : id ∈ l) (hm : st.markets id = some m)
    (hrep : m.status = MarketStatus.reported)
    (hok : (resolveReportedList cfg l st).1 = Except.ok ()) :
    ∃ m', (resolveReportedList cfg l st).2.markets id = some m' ∧
      m'.status = MarketStatus.resolved := by
  induction l generalizing st with
  | nil => cases hmem
  | cons hd rest ih =>
      by_cases hhd : hd = id
      · subst hhd
        simp only [resolveReportedList, M.bind_apply, getM_apply, hm, hrep,
          ne_eq, eq_self_iff_true, not_true, if_false, expectOk_apply] at hok ⊢
        rcases hres : internalResolve cfg hd st with ⟨r1, st1⟩
        have hstat := internalResolve_ok_resolved cfg hd st
        rw [hres] at hstat
        rcases r1 with e | u
        · rw [hres] at hok
          simp at hok
        · simp only [hres] at hok ⊢
          obtain ⟨m', hm', hs'⟩ := hstat rfl
          refine ⟨m', ?_, hs'⟩
          exact resolveReportedList_keeps_nonreported cfg rest st1 hd m' hm'
            (by rw [hs']; intro h; cases h)
      · have hmem' : id ∈ rest := by
          rcases List.mem_cons.mp hmem with h | h
          · exact absurd h.symm hhd
          · exact h
        simp only [resolveReportedList, M.bind_apply, getM_apply] at hok ⊢
        rcases hmhd : st.markets hd with _ | market
        · rw [hmhd] at hok
          simp at hok
        · rw [hmhd] at hok
          by_cases hs : market.status = MarketStatus.reported
          · simp only [hs, ne_eq, eq_self_iff_true, not_true, if_false,
              expectOk_apply] at hok ⊢
            rcases hres : internalResolve cfg hd st with ⟨r1, st1⟩
            have hframe := internalResolve_frame cfg hd st
            rw [hres] at hframe
            rcases r1 with e | u
            · rw [hres] at hok
              simp at hok
            · simp only [hres] at hok ⊢
              have hm1 : st1.markets id = some m :=
                (hframe.2.2.2.2.2 id (fun hEq => hhd hEq.symm)).trans hm
              exact ih st1 hmem' hm1 hok
          · simp only [ne_eq, hs, not_false_eq_true, if_true, M.pure_apply]
              at hok ⊢
            exact ih st hmem' hm hok

/-- The dispute-bucket pass touches no scheduling index, no dispute entry,
and no market outside the processed list. -/
theorem resolveDisputedList_frame (cfg : Config) (l : List Nat) (st : St) :
    (resolveDisputedList cfg l st).2.marketIdsPerReportBlock
      = st.marketIdsPerReportBlock ∧
    (resolveDisputedList cfg l st).2.marketIdsPerDisputeBlock
      = st.marketIdsPerDisputeBlock ∧
    (resolveDisputedList cfg l st).2.disputes = st.disputes ∧
    (∀ j, j ∉ l → (resolveDisputedList cfg l st).2.markets j = st.markets j) := by
  induction l generalizing st with
  | nil => exact ⟨rfl, rfl, rfl, fun j _ => rfl⟩
  | cons hd rest ih =>
      simp only [resolveDisputedList, M.bind_apply, expectOk_apply]
      rcases hres : internalResolve cfg hd st with ⟨r1, st1⟩
      have hframe := internalResolve_frame cfg hd st
      rw [hres] at hframe
      rcases r1 with e | u
      · simp only [hres]
        exact ⟨hframe.2.1, hframe.2.2.1, hframe.1, fun j hj =>
          hframe.2.2.2.2.2 j (fun hEq => hj (hEq ▸ List.mem_cons_self hd rest))⟩
      · simp only [hres]
        obtain ⟨f1, f2, f3, f4⟩ := ih st1
        refine ⟨f1.trans hframe.2.1, f2.trans hframe.2.2.1,
          f3.trans hframe.1, ?_⟩
        intro j hj
        exact (f4 j (fun hmem => hj (List.mem_cons_of_mem hd hmem))).trans
          (hframe.2.2.2.2.2 j (fun hEq => hj (hEq ▸ List.mem_cons_self hd rest)))

/-- If a market is `Resolved` going into a successful dispute-bucket pass, it
is still `Resolved` at the end (a re-resolution keeps the status). -/
theorem resolveDisputedList_keeps_resolved (cfg : Config) (l : List Nat)
    (st : St) (id : Nat) (m : Market)
    (hm : st.markets id = some m) (hres0 : m.status = MarketStatus.resolved)
    (hok : (resolveDisputedList cfg l st).1 = Except.ok ()) :
    ∃ m', (resolveDisputedList cfg l st).2.markets id = some m' ∧
      m'.status = MarketStatus.resolved := by
  induction l generalizing st m with
  | nil => exact ⟨m, hm, hres0⟩
  | cons hd rest ih =>
      simp only [resolveDisputedList, M.bind_apply, expectOk_apply] at hok ⊢
      rcases hres : internalResolve cfg hd st with ⟨r1, st1⟩
      have hframe := internalResolve_frame cfg hd st
      have hstat := internalResolve_ok_resolved cfg hd st
      rw [hres] at hframe hstat
      rcases r1 with e | u
      · rw [hres] at hok
        simp at hok
      · simp only [hres] at hok ⊢
        by_cases hhd : hd = id
        · subst hhd
          obtain ⟨m', hm', hs'⟩ := hstat rfl
          exact ih st1 m' hm' hs' hok
        · have hm1 : st1.markets id = some m :=
            (hframe.2.2.2.2.2 id (fun hEq => hhd hEq.symm)).trans hm
          exact ih st1 m hm1 hres0 hok

/-- Every market listed in the dispute bucket is resolved unconditionally by
a successful dispute-bucket pass. -/
theorem resolveDisputedList_resolves (cfg : Config) (l : List Nat) (st : St)
    (id : Nat) (hmem : id ∈ l)
    (hok : (resolveDisputedList cfg l st).1 = Except.ok ()) :
    ∃ m', (resolveDisputedList cfg l st).2.markets id = some m' ∧
      m'.status = MarketStatus.resolved := by
  induction l generalizing st with
  | nil => cases hmem
  | cons hd rest ih =>
      simp only [resolveDisputedList, M.bind_apply, expectOk_apply] at hok ⊢
      rcases hres : internalResolve cfg hd st with ⟨r1, st1⟩
      have hframe := internalResolve_frame cfg hd st
      have hstat := internalResolve_ok_resolved cfg hd st
      rw [hres] at hframe hstat
      rcases r1 with e | u
      · rw [hres] at hok
        simp at hok
      · simp only [hres] at hok ⊢
        by_cases hhd : hd = id
        · subst hhd
          obtain ⟨m', hm', hs'⟩ := hstat rfl
          exact resolveDisputedList_keeps_resolved cfg rest st1 hd m' hm' hs' hok
        · have hmem' : id ∈ rest := by
            rcases List.mem_cons.mp hmem with h | h
            · exact absurd h.symm hhd
            · exact h
          exact ih st1 hmem' hok

/-! ### C8: the scheduler tick -/

/-- C8: on a successful tick at time `now > DisputePeriod`, `on_finalize`
resolves exactly the right markets: (a) every market in the dispute bucket
keyed `now − DisputePeriod` ends `Resolved` unconditionally; (b) every market
in the report bucket for that key that was still `Reported` ends `Resolved`;
(c) a market in the report bucket in any other status (and not also in the
dispute bucket) is skipped — its record is untouched; (d) markets in neither
bucket are untouched. -/
theorem on_finalize_spec (cfg : Config) (now : Nat) (st : St)
    (hnow : cfg.disputePeriod < now)
    (hok : (onFinalize cfg now st).1 = Except.ok ()) :
    (∀ id ∈ st.marketIdsPerDisputeBlock (now - cfg.disputePeriod),
       ∃ m', (onFinalize cfg now st).2.markets id = some m' ∧
         m'.status = MarketStatus.resolved) ∧
    (∀ id ∈ st.marketIdsPerReportBlock (now - cfg.disputePeriod), ∀ m : Market,
       st.markets id = some m → m.status = MarketStatus.reported →
       ∃ m', (onFinalize cfg now st).2.markets id = some m' ∧
         m'.status = MarketStatus.resolved) ∧
    (∀ id ∈ st.marketIdsPerReportBlock (now - cfg.disputePeriod), ∀ m : Market,
       st.markets id = some m → m.status ≠ MarketStatus.reported →
       id ∉ st.marketIdsPerDisputeBlock (now - cfg.disputePeriod) →
       (onFinalize cfg now st).2.markets id = some m) ∧
    (∀ id, id ∉ st.marketIdsPerReportBlock (now - cfg.disputePeriod) →
       id ∉ st.marketIdsPerDisputeBlock (now - cfg.disputePeriod) →
       (onFinalize cfg now st).2.markets id = st.markets id) := by
  have hle : ¬ now ≤ cfg.disputePeriod := not_le.mpr hnow
  simp only [onFinalize, M.bind_apply, getM_apply, hle, if_false] at hok ⊢
  rcases hp1 : resolveReportedList cfg
      (st.marketIdsPerReportBlock (now - cfg.disputePeriod)) st with ⟨r1, st1⟩
  have hfr1 := resolveReportedList_frame cfg
    (st.marketIdsPerReportBlock (now - cfg.disputePeriod)) st
  rw [hp1] at hfr1
  rcases r1 with e | u
  · rw [hp1] at hok
    simp at hok
  · cases u
    simp only [hp1] at hok ⊢
    have hdb : st1.marketIdsPerDisputeBlock (now - cfg.disputePeriod)
        = st.marketIdsPerDisputeBlock (now - cfg.disputePeriod) := by
      rw [hfr1.2.1]
    rw [hdb] at hok ⊢
    have hok1 : (resolveReportedList cfg
        (st.marketIdsPerReportBlock (now - cfg.disputePeriod)) st).1
          = Except.ok () := by
      rw [hp1]
    refine ⟨?_, ?_, ?_, ?_⟩
    · intro id hmem
      exact resolveDisputedList_resolves cfg _ st1 id hmem hok
    · intro id hmem m hm hrep
      obtain ⟨m', hm', hs'⟩ := resolveReportedList_resolves cfg _ st id m
        hmem hm hrep hok1
      have hm1 : st1.markets id = some m' := by
        rw [hp1] at hm'
        exact hm'
      exact resolveDisputedList_keeps_resolved cfg _ st1 id m' hm1 hs' hok
    · intro id hmem m hm hnr hnotdb
      have hkeep : st1.markets id = some m := by
        have h := resolveReportedList_keeps_nonreported cfg
          (st.marketIdsPerReportBlock (now - cfg.disputePeriod)) st id m hm hnr
        rw [hp1] at h
        exact h
      have hfr2 := resolveDisputedList_frame cfg
        (st.marketIdsPerDisputeBlock (now - cfg.disputePeriod)) st1
      exact (hfr2.2.2.2 id hnotdb).trans hkeep
    · intro id hnrb hndb
      have hkeep : st1.markets id = st.markets id := by
        have h := hfr1.2.2.2 id hnrb
        exact h
      have hfr2 := resolveDisputedList_frame cfg
        (st.marketIdsPerDisputeBlock (now - cfg.disputePeriod)) st1
      exact (hfr2.2.2.2 id hndb).trans hkeep

/-- A reported market sitting in the report bucket for block 1. -/
def mC8a : Market :=
  { creator := AccountId.user 1, creation := MarketCreation.permissionless,
    creatorFee := 0, oracle := AccountId.user 2, end_ := MarketEnd.block 1,
    metadata := [], marketType := MarketType.categorical,
    status := MarketStatus.reported,
    report := some { at_ := 1, by_ := AccountId.user 2, outcome := 0 },
    categories := some 2, resolvedOutcome := none }

/-- A disputed market sitting in the dispute bucket for block 1. -/
def mC8b : Market :=
  { creator := AccountId.user 1, creation := MarketCreation.permissionless,
    creatorFee := 0, oracle := AccountId.user 2, end_ := MarketEnd.block 1,
    metadata := [], marketType := MarketType.categorical,
    status := MarketStatus.disputed,
    report := some { at_ := 1, by_ := AccountId.user 2, outcome := 0 },
    categories := some 2, resolvedOutcome := none }

def stC8 : St :=
  { markets := fun id => if id = 0 then some mC8a
      else if id = 1 then some mC8b else none,
    marketCount := 2,
    marketIdsPerReportBlock := fun _ => [],
    marketIdsPerDisputeBlock := fun _ => [],
    disputes := fun id =>
      if id = 1 then [{ at_ := 1, by_ := AccountId.user 4, outcome := 1 }] else [],
    marketToSwapPool := fun _ => none,
    free := fun _ => 100,
    reserved := fun _ => 100,
    shares := fun _ _ => 0 }

theorem on_finalize_spec_witness :
    (∀ id ∈ stC8.marketIdsPerDisputeBlock (11 - cfg0.disputePeriod),
       ∃ m', (onFinalize cfg0 11 stC8).2.markets id = some m' ∧
         m'.status = MarketStatus.resolved) ∧
    (∀ id ∈ stC8.marketIdsPerReportBlock (11 - cfg0.disputePeriod), ∀ m : Market,
       stC8.markets id = some m → m.status = MarketStatus.reported →
       ∃ m', (onFinalize cfg0 11 stC8).2.markets id = some m' ∧
         m'.status = MarketStatus.resolved) ∧
    (∀ id ∈ stC8.marketIdsPerReportBlock (11 - cfg0.disputePeriod), ∀ m : Market,
       stC8.markets id = some m → m.status ≠ MarketStatus.reported →
       id ∉ stC8.marketIdsPerDisputeBlock (11 - cfg0.disputePeriod) →
       (onFinalize cfg0 11 stC8).2.markets id = some m) ∧
    (∀ id, id ∉ stC8.marketIdsPerReportBlock (11 - cfg0.disputePeriod) →
       id ∉ stC8.marketIdsPerDisputeBlock (11 - cfg0.disputePeriod) →
       (onFinalize cfg0 11 stC8).2.markets id = stC8.markets id) :=
  on_finalize_spec cfg0 11 stC8 (by decide) rfl

/-! ### Dispute-ledger preservation: every operation except `dispute` leaves
the dispute sequences untouched -/

theorem approveMarket_disputes (cfg : Config) (marketId : Nat) (st : St) :
    (approveMarket cfg marketId st).2.disputes = st.disputes := by
  rcases h0 : st.markets marketId with _ | m <;>
    simp only [approveMarket, M.bind_apply, marketById_apply, h0,
      unreserveCurrency_apply, getM_apply, setM_apply, throwM_apply]

theorem rejectMarket_disputes (cfg : Config) (marketId : Nat) (st : St) :
    (rejectMarket cfg marketId st).2.disputes = st.disputes := by
  rcases h0 : st.markets marketId with _ | m <;>
    simp only [rejectMarket, M.bind_apply, marketById_apply, h0,
      slashReservedCurrency_apply, getM_apply, setM_apply, throwM_apply]

theorem cancelPendingMarket_disputes (cfg : Config) (sender : AccountId)
    (marketId : Nat) (st : St) :
    (cancelPendingMarket cfg sender marketId st).2.disputes = st.disputes := by
  rcases h0 : st.markets marketId with _ | m <;>
    simp only [cancelPendingMarket, M.bind_apply, marketById_apply, h0,
      ensureM_apply, unreserveCurrency_apply, getM_apply, setM_apply,
      throwM_apply]
  by_cases h1 : m.creator = sender <;>
    by_cases h2 : m.status = MarketStatus.proposed <;>
      simp [h1, h2]

theorem deploySwapPoolForMarket_disputes (marketId poolId : Nat) (st : St) :
    (deploySwapPoolForMarket marketId poolId st).2.disputes = st.disputes := by
  rcases h0 : st.markets marketId with _ | m <;>
    simp only [deploySwapPoolForMarket, M.bind_apply, marketById_apply, h0,
      ensureM_apply, getM_apply, setM_apply, throwM_apply]
  by_cases h1 : m.status = MarketStatus.active <;>
    by_cases h2 : (st.marketToSwapPool marketId).isNone <;>
      simp [h1, h2]

theorem globalDispute_disputes (marketId : Nat) (st : St) :
    (globalDispute marketId st).2.disputes = st.disputes := by
  rcases h0 : st.markets marketId with _ | m <;>
    simp only [globalDispute, M.bind_apply, marketById_apply, h0, M.pure_apply,
      throwM_apply]

theorem adminMoveMarketToClosed_disputes (chain : Chain) (marketId : Nat)
    (st : St) :
    (adminMoveMarketToClosed chain marketId st).2.disputes = st.disputes := by
  rcases h0 : st.markets marketId with _ | m <;>
    simp only [adminMoveMarketToClosed, M.bind_apply, marketById_apply, h0,
      getM_apply, setM_apply, throwM_apply] <;>
    (try split) <;> rfl

theorem doBuyCompleteSet_disputes (chain : Chain) (who : AccountId)
    (marketId amount : Nat) (st : St) :
    (doBuyCompleteSet chain who marketId amount st).2.disputes = st.disputes := by
  simp only [doBuyCompleteSet, M.bind_apply, getM_apply, ensureM_apply]
  by_cases h1 : amount ≤ st.free who
  · rcases h0 : st.markets marketId with _ | m
    · simp [marketById_apply, h0, h1]
    · simp only [marketById_apply, h0, h1, decide_True, if_true]
      by_cases h2 : isMarketActive chain m.end_
      · simp only [h2, if_true, transferCurrency_apply]
        by_cases h3 : st.free who < amount
        · simp [h3]
        · simp only [h3, if_false]
          obtain ⟨sh, hrun, -, -⟩ := depositAllShares_run marketId who amount
            (List.range m.outcomes)
            { st with free := upd (upd st.free who (st.free who - amount)) (marketAccount marketId) ((upd st.free who (st.free who - amount)) (marketAccount marketId) + amount) }
            (List.nodup_range m.outcomes)
          rw [hrun]
      · simp [h2]
  · simp [h1]

theorem sellCompleteSet_disputes (chain : Chain) (sender : AccountId)
    (marketId amount : Nat) (st : St) :
    (sellCompleteSet chain sender marketId amount st).2.disputes = st.disputes := by
  have hchkAll : ∀ l st0, (checkAllShares marketId sender amount l st0).2 = st0 := by
    intro l
    induction l with
    | nil => intro st0; rfl
    | cons i rest ih =>
        intro st0
        by_cases hc : amount ≤ st0.shares (marketOutcomeShareId marketId i) sender
        · simp only [checkAllShares, M.bind_apply, getM_apply, ensureM_pos hc]
          exact ih st0
        · simp only [checkAllShares, M.bind_apply, getM_apply, ensureM_neg hc]
  rcases h0 : st.markets marketId with _ | m
  · simp [sellCompleteSet, M.bind_apply, marketById_apply, h0]
  · rcases hb : isMarketActive chain m.end_ with _ | _
    · simp [sellCompleteSet, M.bind_apply, marketById_apply, h0, hb]
    · by_cases h2 : amount ≤ st.free (marketAccount marketId)
      case neg =>
        simp [sellCompleteSet, M.bind_apply, marketById_apply, h0,
          hb, getM_apply, h2]
      case pos =>
        simp only [sellCompleteSet, M.bind_apply, marketById_apply, h0,
          ensureM_apply, hb, eq_self_iff_true, if_true, getM_apply,
          decide_eq_true_eq, if_pos h2]
        rcases hchk : checkAllShares marketId sender amount
            (List.range m.outcomes) st with ⟨rc, stc⟩
        have hcs : stc = st := by
          have h := hchkAll (List.range m.outcomes) st
          rw [hchk] at h
          exact h
        rw [hcs]
        rcases rc with e | u
        · rfl
        · obtain ⟨sh, hrun, -, -⟩ := slashAllShares_run marketId sender amount
            (List.range m.outcomes) st (List.nodup_range m.outcomes)
          simp only [hrun, transferCurrency_apply]
          by_cases h3 : ({ st with shares := sh } : St).free (marketAccount marketId) < amount
          · simp [h3]
          · simp [h3]

theorem reportMarket_disputes (cfg : Config) (chain : Chain) (sender : AccountId)
    (marketId outcome : Nat) (st : St) :
    (reportMarket cfg chain sender marketId outcome st).2.disputes
      = st.disputes := by
  rcases h0 : st.markets marketId with _ | m
  · simp [reportMarket, M.bind_apply, marketById_apply, h0]
  · by_cases h1 : outcome ≤ m.outcomes
    case neg =>
      simp [reportMarket, M.bind_apply, marketById_apply, h0, h1]
    case pos =>
      rcases hrep : m.report with _ | r
      case some =>
        simp [reportMarket, M.bind_apply, marketById_apply, h0, h1, hrep]
      case none =>
        rcases hb : isMarketActive chain m.end_ with _ | _
        case true =>
          simp [reportMarket, M.bind_apply, marketById_apply, h0, h1, hrep, hb]
        case false =>
          rcases hend : m.end_ with b | t
          · rw [hend] at hb
            by_cases h4 : chain.block ≤ b + cfg.reportingPeriod
            · by_cases h5 : sender = m.oracle
              · simp [reportMarket, M.bind_apply, marketById_apply, h0, h1,
                  hrep, hb, hend, h4, h5, getM_apply, setM_apply]
              · simp [reportMarket, M.bind_apply, marketById_apply, h0, h1,
                  hrep, hb, hend, h4, h5]
            · simp [reportMarket, M.bind_apply, marketById_apply, h0, h1,
                hrep, hb, hend, h4, getM_apply, setM_apply]
          · rw [hend] at hb
            by_cases h4 : chain.time ≤ t + cfg.reportingPeriod * 6000
            · by_cases h5 : sender = m.oracle
              · simp [reportMarket, M.bind_apply, marketById_apply, h0, h1,
                  hrep, hb, hend, h4, h5, getM_apply, setM_apply]
              · simp [reportMarket, M.bind_apply, marketById_apply, h0, h1,
                  hrep, hb, hend, h4, h5]
            · simp [reportMarket, M.bind_apply, marketById_apply, h0, h1,
                hrep, hb, hend, h4, getM_apply, setM_apply]

theorem redeemShares_disputes (sender : AccountId) (marketId : Nat) (st : St) :
    (redeemShares sender marketId st).2.disputes = st.disputes := by
  rcases h0 : st.markets marketId with _ | m
  · simp [redeemShares, M.bind_apply, marketById_apply, h0]
  · by_cases h1 : m.status = MarketStatus.resolved
    case neg =>
      simp [redeemShares, M.bind_apply, marketById_apply, h0, h1]
    case pos =>
      rcases hro : m.resolvedOutcome with _ | ro
      case none =>
        simp [redeemShares, M.bind_apply, marketById_apply, h0, h1, hro]
      case some =>
        by_cases h3 : st.shares (marketOutcomeShareId marketId ro) sender
            ≤ st.free (marketAccount marketId)
        case neg =>
          simp [redeemShares, M.bind_apply, marketById_apply, h0, h1, hro,
            getM_apply, h3]
        case pos =>
          simp only [redeemShares, M.bind_apply, marketById_apply, h0,
            ensureM_apply, h1, eq_self_iff_true, if_true, hro, getM_apply,
            decide_eq_true_eq, Nat.zero_le, if_pos h3, slashShares_apply,
            transferCurrency_apply]
          split
          · rfl
          · rfl

theorem clearAutoResolve_disputes (marketId : Nat) (st : St) :
    (clearAutoResolve marketId st).2.disputes = st.disputes := by
  rcases h0 : st.markets marketId with _ | m
  · simp [clearAutoResolve, M.bind_apply, marketById_apply, h0]
  · simp only [clearAutoResolve, M.bind_apply, marketById_apply, h0]
    by_cases h1 : m.status = MarketStatus.reported
    · simp only [h1, if_pos rfl]
      rcases hrep : m.report with _ | r
      · simp [hrep]
      · simp only [hrep, getM_apply]
        rcases hrem : removeItem (st.marketIdsPerReportBlock r.at_) marketId with _ | l
        · simp [hrem, h1]
        · simp [hrem, h1]
    · rw [if_neg h1]
      simp only [M.bind_apply, M.pure_apply]
      by_cases h2 : m.status = MarketStatus.disputed
      · simp only [h2, eq_self_iff_true, if_true, M.bind_apply, getM_apply]
        rcases hget : (st.disputes marketId).get?
            ((st.disputes marketId).length % 2 ^ 16 - 1) with _ | prev
        · rfl
        · simp only [M.bind_apply, getM_apply]
          rcases hrem : removeItem (st.marketIdsPerDisputeBlock prev.at_) marketId with _ | l2
          · rfl
          · rfl
      · simp [h2]

theorem createCategoricalMarket_disputes (cfg : Config) (chain : Chain)
    (sender oracle : AccountId) (end_ : MarketEnd) (metadata : List Nat)
    (creation : MarketCreation) (categories : Nat) (st : St) :
    (createCategoricalMarket cfg chain sender oracle end_ metadata creation
      categories st).2.disputes = st.disputes := by
  by_cases h1 : categories ≤ cfg.maxCategories
  case neg =>
    simp [createCategoricalMarket, M.bind_apply, h1]
  case pos =>
    rcases end_ with b | t
    · by_cases h2 : chain.block < b
      case neg => simp [createCategoricalMarket, M.bind_apply, h1, h2]
      case pos =>
        rcases creation
        case permissionless =>
          by_cases h3 : st.free sender < cfg.validityBond + cfg.oracleBond
          · simp [createCategoricalMarket, M.bind_apply, h1, h2,
              reserveCurrency_apply, h3]
          · by_cases h4 : st.marketCount + 1 < 2 ^ 128
            · simp only [createCategoricalMarket, M.bind_apply, ensureM_apply,
                decide_eq_true_eq, if_pos h1, if_pos h2, reserveCurrency_apply,
                if_neg h3, getNextMarketId, getM_apply, if_pos h4, setM_apply,
                M.pure_apply]
            · simp only [createCategoricalMarket, M.bind_apply, ensureM_apply,
                decide_eq_true_eq, if_pos h1, if_pos h2, reserveCurrency_apply,
                if_neg h3, getNextMarketId, getM_apply, M.pure_apply,
                if_neg h4, throwM_apply]
        case advised =>
          by_cases h3 : st.free sender < cfg.advisoryBond + cfg.oracleBond
          · simp [createCategoricalMarket, M.bind_apply, h1, h2,
              reserveCurrency_apply, h3]
          · by_cases h4 : st.marketCount + 1 < 2 ^ 128
            · simp only [createCategoricalMarket, M.bind_apply, ensureM_apply,
                decide_eq_true_eq, if_pos h1, if_pos h2, reserveCurrency_apply,
                if_neg h3, getNextMarketId, getM_apply, if_pos h4, setM_apply,
                M.pure_apply]
            · simp only [createCategoricalMarket, M.bind_apply, ensureM_apply,
                decide_eq_true_eq, if_pos h1, if_pos h2, reserveCurrency_apply,
                if_neg h3, getNextMarketId, getM_apply, M.pure_apply,
                if_neg h4, throwM_apply]
    · by_cases h2 : chain.time < t
      case neg => simp [createCategoricalMarket, M.bind_apply, h1, h2]
      case pos =>
        rcases creation
        case permissionless =>
          by_cases h3 : st.free sender < cfg.validityBond + cfg.oracleBond
          · simp [createCategoricalMarket, M.bind_apply, h1, h2,
              reserveCurrency_apply, h3]
          · by_cases h4 : st.marketCount + 1 < 2 ^ 128
            · simp only [createCategoricalMarket, M.bind_apply, ensureM_apply,
                decide_eq_true_eq, if_pos h1, if_pos h2, reserveCurrency_apply,
                if_neg h3, getNextMarketId, getM_apply, if_pos h4, setM_apply,
                M.pure_apply]
            · simp only [createCategoricalMarket, M.bind_apply, ensureM_apply,
                decide_eq_true_eq, if_pos h1, if_pos h2, reserveCurrency_apply,
                if_neg h3, getNextMarketId, getM_apply, M.pure_apply,
                if_neg h4, throwM_apply]
        case advised =>
          by_cases h3 : st.free sender < cfg.advisoryBond + cfg.oracleBond
          · simp [createCategoricalMarket, M.bind_apply, h1, h2,
              reserveCurrency_apply, h3]
          · by_cases h4 : st.marketCount + 1 < 2 ^ 128
            · simp only [createCategoricalMarket, M.bind_apply, ensureM_apply,
                decide_eq_true_eq, if_pos h1, if_pos h2, reserveCurrency_apply,
                if_neg h3, getNextMarketId, getM_apply, if_pos h4, setM_apply,
                M.pure_apply]
            · simp only [createCategoricalMarket, M.bind_apply, ensureM_apply,
                decide_eq_true_eq, if_pos h1, if_pos h2, reserveCurrency_apply,
                if_neg h3, getNextMarketId, getM_apply, M.pure_apply,
                if_neg h4, throwM_apply]

theorem adminDestroyMarket_disputes (marketId : Nat) (st : St) :
    (adminDestroyMarket marketId st).2.disputes = st.disputes := by
  rcases h0 : st.markets marketId with _ | m
  · simp [adminDestroyMarket, M.bind_apply, marketById_apply, h0]
  · simp only [adminDestroyMarket, M.bind_apply, marketById_apply, h0]
    rcases hc : clearAutoResolve marketId st with ⟨rc, stc⟩
    have hdis := clearAutoResolve_disputes marketId st
    rw [hc] at hdis
    rcases rc with e | u
    · exact hdis
    · simp only [M.bind_apply, getM_apply, setM_apply]
      obtain ⟨sh, hdes⟩ := destroyAllOutcomes_run marketId (List.range m.outcomes)
        { stc with markets := upd stc.markets marketId none }
      simp only [hdes]
      exact hdis

theorem adminMoveMarketToResolved_disputes (cfg : Config) (marketId : Nat)
    (st : St) :
    (adminMoveMarketToResolved cfg marketId st).2.disputes = st.disputes := by
  rcases h0 : st.markets marketId with _ | m
  · simp [adminMoveMarketToResolved, M.bind_apply, marketById_apply, h0]
  · by_cases h1 : m.status = MarketStatus.reported ∨ m.status = MarketStatus.disputed
    case neg =>
      simp [adminMoveMarketToResolved, M.bind_apply, marketById_apply, h0, h1]
    case pos =>
      simp only [adminMoveMarketToResolved, M.bind_apply, marketById_apply, h0,
        ensureM_apply, decide_eq_true_eq, if_pos h1]
      rcases hc : clearAutoResolve marketId st with ⟨rc, stc⟩
      have hdis := clearAutoResolve_disputes marketId st
      rw [hc] at hdis
      rcases rc with e | u
      · exact hdis
      · exact ((internalResolve_frame cfg marketId stc).1).trans hdis

theorem onFinalize_disputes (cfg : Config) (now : Nat) (st : St) :
    (onFinalize cfg now st).2.disputes = st.disputes := by
  by_cases h1 : now ≤ cfg.disputePeriod
  · simp [onFinalize, h1]
  · simp only [onFinalize, M.bind_apply, getM_apply, if_neg h1]
    rcases hr : resolveReportedList cfg
        (st.marketIdsPerReportBlock (now - cfg.disputePeriod)) st with ⟨r1, st1⟩
    have hfr := (resolveReportedList_frame cfg
        (st.marketIdsPerReportBlock (now - cfg.disputePeriod)) st).2.2.1
    rw [hr] at hfr
    rcases r1 with e | u
    · exact hfr
    · exact ((resolveDisputedList_frame cfg
        (st1.marketIdsPerDisputeBlock (now - cfg.disputePeriod)) st1).2.2.1).trans hfr

/-- `dispute` either leaves the dispute store untouched (any failing guard,
a failed bond reserve, or an internal panic), or appends exactly one dispute
record for the disputed market, and in the latter case the `MaxDisputesReached`
guard held and, when the (u16-cast) count was positive, the indexed previous
dispute had a different outcome. -/
theorem disputeMarket_disputes_char (cfg : Config) (chain : Chain)
    (sender : AccountId) (marketId outcome : Nat) (st : St) :
    (disputeMarket cfg chain sender marketId outcome st).2.disputes
        = st.disputes ∨
      ((st.disputes marketId).length % 2 ^ 16 < cfg.maxDisputes ∧
       (0 < (st.disputes marketId).length % 2 ^ 16 →
         ∀ prev, (st.disputes marketId).get?
             ((st.disputes marketId).length % 2 ^ 16 - 1) = some prev →
           prev.outcome ≠ outcome) ∧
       (disputeMarket cfg chain sender marketId outcome st).2.disputes
         = upd st.disputes marketId (st.disputes marketId ++
             [{ at_ := chain.block, by_ := sender, outcome := outcome }])) := by
  rcases h0 : st.markets marketId with _ | m
  · left
    simp [disputeMarket, M.bind_apply, marketById_apply, h0]
  · rcases hrep : m.report with _ | r
    case none =>
      left
      simp [disputeMarket, M.bind_apply, marketById_apply, h0, hrep]
    case some =>
      by_cases h2 : outcome < m.outcomes
      case neg =>
        left
        simp [disputeMarket, M.bind_apply, marketById_apply, h0, hrep, h2]
      case pos =>
        by_cases h3 : (st.disputes marketId).length % 2 ^ 16 < cfg.maxDisputes
        case neg =>
          left
          simp only [disputeMarket, M.bind_apply, marketById_apply, h0, hrep,
            Option.isSome_some, ensureM_apply, eq_self_iff_true, if_true,
            decide_eq_true_eq, if_pos h2, getM_apply, if_neg h3]
        case pos =>
          by_cases hn : 0 < (st.disputes marketId).length % 2 ^ 16
          case neg =>
            by_cases h6 : st.free sender <
                cfg.disputeBond + cfg.disputeFactor *
                  ((st.disputes marketId).length % 2 ^ 16)
            · left
              simp only [disputeMarket, M.bind_apply, marketById_apply, h0, hrep,
                Option.isSome_some, ensureM_apply, eq_self_iff_true, if_true,
                decide_eq_true_eq, if_pos h2, getM_apply, if_pos h3, if_neg hn,
                M.pure_apply, reserveCurrency_apply, if_pos h6]
            · right
              refine ⟨h3, fun h _ _ => absurd h hn, ?_⟩
              by_cases h7 : m.status = MarketStatus.disputed
              · simp only [disputeMarket, M.bind_apply, marketById_apply, h0, hrep,
                  Option.isSome_some, ensureM_apply, eq_self_iff_true, if_true,
                  decide_eq_true_eq, if_pos h2, getM_apply, if_pos h3, if_neg hn,
                  M.pure_apply, reserveCurrency_apply, if_neg h6, setM_apply,
                  h7, ne_eq, not_true, if_false]
              · simp only [disputeMarket, M.bind_apply, marketById_apply, h0, hrep,
                  Option.isSome_some, ensureM_apply, eq_self_iff_true, if_true,
                  decide_eq_true_eq, if_pos h2, getM_apply, if_pos h3, if_neg hn,
                  M.pure_apply, reserveCurrency_apply, if_neg h6, setM_apply,
                  ne_eq, if_pos h7]
          case pos =>
            rcases hget : (st.disputes marketId).get?
                ((st.disputes marketId).length % 2 ^ 16 - 1) with _ | prev
            · left
              simp only [disputeMarket, M.bind_apply, marketById_apply, h0, hrep,
                Option.isSome_some, ensureM_apply, eq_self_iff_true, if_true,
                decide_eq_true_eq, if_pos h2, getM_apply, if_pos h3, if_pos hn,
                hget, throwM_apply]
            · by_cases h5 : prev.outcome = outcome
              · left
                simp only [disputeMarket, M.bind_apply, marketById_apply, h0, hrep,
                  Option.isSome_some, ensureM_apply, eq_self_iff_true, if_true,
                  decide_eq_true_eq, if_pos h2, getM_apply, if_pos h3, if_pos hn,
                  hget, if_neg (not_not_intro h5)]
              · by_cases h6 : st.free sender <
                    cfg.disputeBond + cfg.disputeFactor *
                      ((st.disputes marketId).length % 2 ^ 16)
                · left
                  simp only [disputeMarket, M.bind_apply, marketById_apply, h0, hrep,
                    Option.isSome_some, ensureM_apply, eq_self_iff_true, if_true,
                    decide_eq_true_eq, if_pos h2, getM_apply, if_pos h3, if_pos hn,
                    hget, if_pos h5, ne_eq, reserveCurrency_apply, if_pos h6]
                · rcases hrem : removeItem (st.marketIdsPerDisputeBlock prev.at_)
                      marketId with _ | l
                  · left
                    simp only [disputeMarket, M.bind_apply, marketById_apply, h0, hrep,
                      Option.isSome_some, ensureM_apply, eq_self_iff_true, if_true,
                      decide_eq_true_eq, if_pos h2, getM_apply, if_pos h3, if_pos hn,
                      hget, if_pos h5, ne_eq, reserveCurrency_apply, if_neg h6,
                      hrem, throwM_apply]
                  · right
                    refine ⟨h3, fun _ prev2 hprev2 => ?_, ?_⟩
                    · have hp := Option.some.inj hprev2
                      rw [← hp]
                      exact h5
                    · by_cases h7 : m.status = MarketStatus.disputed
                      · simp only [disputeMarket, M.bind_apply, marketById_apply, h0,
                          hrep, Option.isSome_some, ensureM_apply, eq_self_iff_true,
                          if_true, decide_eq_true_eq, if_pos h2, getM_apply, if_pos h3,
                          if_pos hn, hget, if_pos h5, ne_eq, reserveCurrency_apply,
                          if_neg h6, hrem, setM_apply, M.pure_apply, h7,
                          not_true, if_false]
                      · simp only [disputeMarket, M.bind_apply, marketById_apply, h0,
                          hrep, Option.isSome_some, ensureM_apply, eq_self_iff_true,
                          if_true, decide_eq_true_eq, if_pos h2, getM_apply, if_pos h3,
                          if_pos hn, hget, if_pos h5, ne_eq, reserveCurrency_apply,
                          if_neg h6, hrem, setM_apply, M.pure_apply, if_pos h7]

/-- A single `dispute` call preserves the dispute-ledger invariant whenever the
configured maximum fits in a `u16` (so the `len() as u16` cast is lossless on
every sequence the invariant allows). -/
theorem disputeMarket_wf (cfg : Config) (chain : Chain) (sender : AccountId)
    (marketId outcome : Nat) (st : St) (hmax : cfg.maxDisputes < 2 ^ 16)
    (hwf : DisputesWellFormed cfg st) :
    DisputesWellFormed cfg
      (disputeMarket cfg chain sender marketId outcome st).2 := by
  rcases disputeMarket_disputes_char cfg chain sender marketId outcome st with
    heq | ⟨hlt, hprev, heq⟩
  · intro id
    rw [heq]
    exact hwf id
  · intro id
    rw [heq]
    by_cases hid : id = marketId
    · subst hid
      rw [upd_same]
      obtain ⟨hlen, hch⟩ := hwf id
      have hmod : (st.disputes id).length % 2 ^ 16 = (st.disputes id).length :=
        Nat.mod_eq_of_lt (lt_of_le_of_lt hlen hmax)
      rw [hmod] at hlt hprev
      constructor
      · rw [List.length_append]
        simp only [List.length_singleton]
        exact hlt
      · rw [List.chain'_append]
        refine ⟨hch, List.chain'_singleton _, ?_⟩
        intro x hx y hy
        have hnil : st.disputes id ≠ [] := by
          intro hcon
          rw [hcon] at hx
          simp at hx
        have hlast := dispute_get_last (st.disputes id) hnil
          (lt_of_le_of_lt hlen hmax)
        rw [hmod] at hlast
        have hx' : (st.disputes id).getLast hnil = x := by
          rw [List.getLast?_eq_getLast (st.disputes id) hnil] at hx
          exact Option.mem_some_iff.mp hx
        have hy' : y = { at_ := chain.block, by_ := sender, outcome := outcome } := by
          simp only [List.head?_cons, Option.mem_some_iff] at hy
          exact hy.symm
        have hpos : 0 < (st.disputes id).length := List.length_pos.mpr hnil
        have hne2 := hprev hpos ((st.disputes id).getLast hnil) hlast
        rw [hx'] at hne2
        rw [hy']
        exact hne2
    · rw [upd_ne _ _ _ _ hid]
      exact hwf id

/-- An everywhere-empty module state: no markets, no balances, no disputes. -/
def stC7 : St :=
  { markets := fun _ => none, marketCount := 0,
    marketIdsPerReportBlock := fun _ => [],
    marketIdsPerDisputeBlock := fun _ => [],
    disputes := fun _ => [], marketToSwapPool := fun _ => none,
    free := fun _ => 0, reserved := fun _ => 0, shares := fun _ _ => 0 }

/-- **C7.**  In every state reachable (by any sequence of dispatchable calls
and `on_finalize` ticks) from a state satisfying the dispute-ledger invariant,
and whenever the configured `MaxDisputes` fits in a `u16` (the runtime casts
the sequence length with `as u16`), every market's stored dispute sequence has
no two adjacent entries with the same outcome and its length never exceeds the
configured maximum: `dispute` rejects a call violating either bound before any
append, and no other operation ever appends to the store. -/
theorem dispute_ledger_invariant (cfg : Config) (st0 st : St)
    (hmax : cfg.maxDisputes < 2 ^ 16)
    (h0 : DisputesWellFormed cfg st0)
    (hreach : Reachable cfg st0 st) :
    DisputesWellFormed cfg st := by
  induction hreach with
  | refl => exact h0
  | tail hsteps hstep ih =>
      cases hstep with
      | create chain sender oracle end_ metadata creation categories st1 =>
          intro id
          simp only [createCategoricalMarket_disputes]
          exact ih id
      | approve marketId st1 =>
          intro id
          simp only [approveMarket_disputes]
          exact ih id
      | reject marketId st1 =>
          intro id
          simp only [rejectMarket_disputes]
          exact ih id
      | cancel sender marketId st1 =>
          intro id
          simp only [cancelPendingMarket_disputes]
          exact ih id
      | deployPool marketId poolId st1 =>
          intro id
          simp only [deploySwapPoolForMarket_disputes]
          exact ih id
      | buy chain who marketId amount st1 =>
          intro id
          simp only [doBuyCompleteSet_disputes]
          exact ih id
      | sell chain sender marketId amount st1 =>
          intro id
          simp only [sellCompleteSet_disputes]
          exact ih id
      | report chain sender marketId outcome st1 =>
          intro id
          simp only [reportMarket_disputes]
          exact ih id
      | dispute chain sender marketId outcome st1 =>
          exact disputeMarket_wf cfg chain sender marketId outcome _ hmax ih
      | global marketId st1 =>
          intro id
          simp only [globalDispute_disputes]
          exact ih id
      | redeem sender marketId st1 =>
          intro id
          simp only [redeemShares_disputes]
          exact ih id
      | destroy marketId st1 =>
          intro id
          simp only [adminDestroyMarket_disputes]
          exact ih id
      | moveClosed chain marketId st1 =>
          intro id
          simp only [adminMoveMarketToClosed_disputes]
          exact ih id
      | moveResolved marketId st1 =>
          intro id
          simp only [adminMoveMarketToResolved_disputes]
          exact ih id
      | finalize now st1 =>
          intro id
          simp only [onFinalize_disputes]
          exact ih id

/-- The invariant theorem applied at a concrete configuration and state. -/
theorem dispute_ledger_invariant_witness :
    cfg0.maxDisputes < 2 ^ 16 ∧ DisputesWellFormed cfg0 stC7 :=
  ⟨by decide,
   dispute_ledger_invariant cfg0 stC7 stC7 (by decide)
     (fun _ => ⟨Nat.zero_le _, List.chain'_nil⟩)
     Relation.ReflTransGen.refl⟩

end Zeitgeist
